import Mathlib

/-!
# Verification of the `my-mega-memory` import/normalization pipeline

A shallow embedding, in Lean 4, of the core data model and operations of the
`my-mega-memory` TypeScript repository: the canonical message model, the
tool-call/result correlator, project-identity derivation (UUID v5 over a
normalized path), the timestamp-unit heuristic, the search-repository limit
handling, and the dual-store import path (primary SQLite tables plus an FTS5
search index).

Modelling conventions used throughout:

* TypeScript numbers that hold integers are modelled as `Int` (or `Nat` where
  the source guarantees non-negativity); JavaScript strings as `String`;
  optional fields (`x?: T`, value `undefined`) as `Option`.
* SQLite tables are modelled as lists of row structures together with a
  `nextId` counter for `AUTOINCREMENT` primary keys.  `INSERT ... ON CONFLICT
  DO UPDATE` (upsert) either rewrites the conflicting row in place (keeping
  its `id`, which is what `RETURNING id` observes) or appends a fresh row.
* External library functions with no algorithmic content of their own in this
  repository (`JSON.stringify`, `new Date(...).getTime()`, `Date#toISOString`,
  the FTS5 `MATCH`/`ORDER BY` evaluation) are taken as explicit function
  parameters, so every theorem below holds for every possible behaviour of
  those externals.  SHA-1 (`crypto.createHash('sha1')`) is fully implemented,
  since the UUID well-formedness claim depends on its output shape.
-/

/-! ## Timestamp unit detection (`src/utils/time.ts`, `toDateTimeString`)

```ts
export function toDateTimeString(timestamp: number): string {
  const ms = timestamp > 1_000_000_000_000 ? timestamp : timestamp * 1000;
  return new Date(ms).toISOString();
}
```

`toDateTimeMs` is the value of the local `ms`; the subsequent
`new Date(ms).toISOString()` conversion is an injective formatting step
supplied by the JavaScript runtime and is abstracted as a parameter
wherever the string itself is needed. -/

def toDateTimeMs (timestamp : Int) : Int :=
  if timestamp > 1000000000000 then timestamp else timestamp * 1000

/-- `toDateTimeString` itself, parametric in the runtime's ISO-8601
formatter `isoOfMs`. -/
def toDateTimeString (isoOfMs : Int → String) (timestamp : Int) : String :=
  isoOfMs (toDateTimeMs timestamp)

/-! ## Project path normalization and UUID v5
(`src/utils/uuid.ts`, `generateProjectUuid`) -/

/-- JavaScript `String#toLowerCase` restricted to its ASCII action, applied
character by character (all call sites in this repository pass filesystem
paths and tool names). -/
def jsToLower (s : String) : String := String.mk (s.data.map Char.toLower)

/-- The path normalization performed at the top of `generateProjectUuid`:
`replace(/\\/g, '/')` (every backslash becomes a forward slash), then
`replace(/\/$/, '')` (a single trailing forward slash is removed; the `$`
anchor of a non-multiline JavaScript regex matches only at the very end of
the string), then `toLowerCase()`. -/
def normalizeProjectPath (projectPath : String) : String :=
  let s1 := projectPath.data.map (fun c => if c = '\\' then '/' else c)
  let s2 := if s1.getLast? = some '/' then s1.dropLast else s1
  jsToLower (String.mk s2)

/-- The fixed namespace constant `PROJECT_NAMESPACE` from `src/utils/uuid.ts`. -/
def PROJECT_NAMESPACE : String := "6ba7b810-9dad-11d1-80b4-00c04fd430c8"

/-- UTF-8 bytes of a string, as natural numbers — the byte stream that
Node's `hash.update(string)` consumes (default `utf8` encoding). -/
def strBytes (s : String) : List Nat := s.toUTF8.toList.map UInt8.toNat

/-! ### SHA-1 (the `crypto` standard algorithm used by `createHash('sha1')`)

Machine words are `Nat`s reduced modulo `2^32` at every arithmetic step. -/

/-- Reduction modulo `2^32`. -/
def w32 (n : Nat) : Nat := n % 4294967296

/-- 32-bit left rotation by `s` bits. -/
def rotl (s x : Nat) : Nat := ((x <<< s) ||| (x >>> (32 - s))) % 4294967296

/-- The SHA-1 round function `f_t(b,c,d)`. -/
def sha1F (t b c d : Nat) : Nat :=
  if t < 20 then (b &&& c) ||| ((b ^^^ 4294967295) &&& d)
  else if t < 40 then b ^^^ c ^^^ d
  else if t < 60 then (b &&& c) ||| (b &&& d) ||| (c &&& d)
  else b ^^^ c ^^^ d

/-- The SHA-1 round constant `K_t`. -/
def sha1K (t : Nat) : Nat :=
  if t < 20 then 0x5A827999
  else if t < 40 then 0x6ED9EBA1
  else if t < 60 then 0x8F1BBCDC
  else 0xCA62C1D6

/-- SHA-1 message padding: append `0x80`, zero bytes up to 56 mod 64, then
the bit length as an 8-byte big-endian integer. -/
def sha1Pad (msg : List Nat) : List Nat :=
  let len := msg.length
  let k := (64 + 56 - ((len + 1) % 64)) % 64
  let L := len * 8
  msg ++ [0x80] ++ List.replicate k 0 ++
    [L / 2 ^ 56 % 256, L / 2 ^ 48 % 256, L / 2 ^ 40 % 256, L / 2 ^ 32 % 256,
     L / 2 ^ 24 % 256, L / 2 ^ 16 % 256, L / 2 ^ 8 % 256, L % 256]

/-- Split a byte list into 64-byte chunks. -/
def chunks64 (l : List Nat) : List (List Nat) :=
  if h : l = [] then [] else
    l.take 64 :: chunks64 (l.drop 64)
termination_by l.length
decreasing_by
  simp only [List.length_drop]
  exact Nat.sub_lt (List.length_pos.mpr h) (by norm_num)

/-- Big-endian 32-bit word from four bytes. -/
def beWord (a b c d : Nat) : Nat := ((a * 256 + b) * 256 + c) * 256 + d

/-- The sixteen initial message-schedule words of one 64-byte block. -/
def blockWords (blk : List Nat) : List Nat :=
  (List.range 16).map fun i =>
    beWord (blk.getD (4 * i) 0) (blk.getD (4 * i + 1) 0)
      (blk.getD (4 * i + 2) 0) (blk.getD (4 * i + 3) 0)

/-- Extend the message schedule from 16 to 80 words
(`W_t = rotl 1 (W_{t-3} xor W_{t-8} xor W_{t-14} xor W_{t-16})`),
with `fuel` remaining extension steps. -/
def extendWords (fuel : Nat) (w : List Nat) : List Nat :=
  match fuel with
  | 0 => w
  | fuel + 1 =>
    let n := w.length
    extendWords fuel
      (w ++ [rotl 1 (w.getD (n - 3) 0 ^^^ w.getD (n - 8) 0 ^^^
        w.getD (n - 14) 0 ^^^ w.getD (n - 16) 0)])

/-- The five-word SHA-1 state. -/
structure Sha1State where
  a : Nat
  b : Nat
  c : Nat
  d : Nat
  e : Nat
deriving DecidableEq

/-- One SHA-1 round. -/
def sha1Round (w : List Nat) (st : Sha1State) (t : Nat) : Sha1State :=
  let temp := w32 (rotl 5 st.a + sha1F t st.b st.c st.d + st.e + sha1K t + w.getD t 0)
  ⟨temp, st.a, rotl 30 st.b, st.c, st.d⟩

/-- Process one 64-byte block. -/
def sha1Block (h : Sha1State) (blk : List Nat) : Sha1State :=
  let w := extendWords 64 (blockWords blk)
  let st := (List.range 80).foldl (sha1Round w) h
  ⟨w32 (h.a + st.a), w32 (h.b + st.b), w32 (h.c + st.c),
   w32 (h.d + st.d), w32 (h.e + st.e)⟩

/-- The SHA-1 initialization vector. -/
def sha1Init : Sha1State :=
  ⟨0x67452301, 0xEFCDAB89, 0x98BADCFE, 0x10325476, 0xC3D2E1F0⟩

/-- SHA-1 over a byte list, producing the final five-word state. -/
def sha1 (msg : List Nat) : Sha1State :=
  (chunks64 (sha1Pad msg)).foldl sha1Block sha1Init

/-- The four big-endian bytes of one 32-bit word. -/
def bytesOfWord (w : Nat) : List Nat :=
  [w / 2 ^ 24 % 256, w / 2 ^ 16 % 256, w / 2 ^ 8 % 256, w % 256]

/-- The 20-byte SHA-1 digest (`hash.digest()`). -/
def sha1Digest (msg : List Nat) : List Nat :=
  let h := sha1 msg
  bytesOfWord h.a ++ bytesOfWord h.b ++ bytesOfWord h.c ++
    bytesOfWord h.d ++ bytesOfWord h.e

/-- The two in-place digest updates of `generateProjectUuid`:
`digest[6] = (digest[6] & 0x0f) | 0x50` (version 5) and
`digest[8] = (digest[8] & 0x3f) | 0x80` (RFC 4122 variant). -/
def applyVersionVariant (d : List Nat) : List Nat :=
  let d1 := d.set 6 ((d.getD 6 0 &&& 0x0f) ||| 0x50)
  d1.set 8 ((d1.getD 8 0 &&& 0x3f) ||| 0x80)

/-- Lowercase hexadecimal digit character for `n < 16`
(the alphabet of Node's `Buffer#toString('hex')`). -/
def hexDigitChar (n : Nat) : Char :=
  if n < 10 then Char.ofNat (48 + n) else Char.ofNat (87 + n)

/-- The two lowercase hex characters of one byte. -/
def hexByte (b : Nat) : List Char := [hexDigitChar (b / 16), hexDigitChar (b % 16)]

/-- The 40-character hex encoding of the (version/variant-adjusted) digest. -/
def uuidHexChars (msg : List Nat) : List Char :=
  (applyVersionVariant (sha1Digest msg)).flatMap hexByte

/-- The character sequence of the final UUID string:
`hex.substring(0,8) + '-' + hex.substring(8,12) + '-' + hex.substring(12,16)
 + '-' + hex.substring(16,20) + '-' + hex.substring(20,32)` — the source's
`[...].join('-')` over the five substrings. -/
def uuidCharsOf (hex : List Char) : List Char :=
  hex.take 8 ++ '-' :: ((hex.drop 8).take 4 ++ '-' :: ((hex.drop 12).take 4 ++
    '-' :: ((hex.drop 16).take 4 ++ '-' :: (hex.drop 20).take 12)))

/-- `generateProjectUuid` from `src/utils/uuid.ts`: normalize the path, hash
`PROJECT_NAMESPACE` followed by the normalized path (two successive
`hash.update` calls hash the concatenated byte streams), force the UUID v5
version and RFC 4122 variant nibbles, and format as five hyphen-joined hex
groups. -/
def generateProjectUuid (projectPath : String) : String :=
  let normalizedPath := normalizeProjectPath projectPath
  String.mk (uuidCharsOf (uuidHexChars (strBytes PROJECT_NAMESPACE ++ strBytes normalizedPath)))

/-! ## Canonical message model (`src/types.ts`) -/

/-- `MessageContent` — the content-block tagged union. -/
inductive MessageContent where
  | text (text : String)
  | code (code : String) (language : Option String)
  | markdown (markdown : String)
  | json (json : String)
  | diff (oldText newText : String) (filePath : Option String)
  | html (html : String)
deriving DecidableEq

/-- `ToolResult` — one correlated tool result attached to a `tool_use`. -/
structure ToolResult where
  output : String
  isError : Bool
  toolCallId : Option String
deriving DecidableEq

/-- `InfoStyle`. -/
inductive InfoStyle where
  | default
  | error
deriving DecidableEq

/-- `ParsedMessage` — the tagged union of conversation events.  `undefined`
optional fields are `none`; `input: Record<string, string>` is an
association list in insertion order. -/
inductive ParsedMessage where
  | user (timestamp : String) (content : List MessageContent)
  | assistant_text (timestamp : String) (content : List MessageContent)
  | assistant_thinking (timestamp : String) (thinking : String)
  | tool_use (timestamp : String) (toolName : String) (toolCallId : Option String)
      (input : List (String × String)) (results : List ToolResult)
  | tool_result (timestamp : String) (toolName : Option String) (toolCallId : Option String)
      (output : List MessageContent) (isError : Bool)
  | info (timestamp : String) (title : String) (subtitle : Option String)
      (content : Option MessageContent) (style : InfoStyle)
deriving DecidableEq

/-! ## Tool-call/result correlator
(`ClaudeSessionParser.connectToolResultsToToolUse`;
`CodexSessionParser.connectToolOutputsToToolCalls` is line-for-line
identical) -/

/-- JavaScript truthiness of an optional string (`undefined` and `""` are
falsy). -/
def jsTruthy : Option String → Bool
  | none => false
  | some s => s ≠ ""

/-- The `toolCallId` field of a message (`undefined` for kinds that lack
it). -/
def toolCallIdOf : ParsedMessage → Option String
  | .tool_use _ _ id _ _ => id
  | .tool_result _ _ id _ _ => id
  | _ => none

/-- Is this message a `tool_result`? -/
def isToolResultMsg : ParsedMessage → Bool
  | .tool_result _ _ _ _ _ => true
  | _ => false

/-- Is this message a `tool_use`? -/
def isToolUseMsg : ParsedMessage → Bool
  | .tool_use _ _ _ _ _ => true
  | _ => false

/-- The `toolResultsByCallId` map of the correlator, extensionally: the
`tool_result` messages of the stream carrying the given (truthy) call
identifier, in stream order.  The source builds this map only from
`tool_result`s whose `toolCallId` is truthy, so a lookup at a truthy key
returns exactly this filter. -/
def toolResultsFor (ms : List ParsedMessage) (id : String) : List ParsedMessage :=
  ms.filter fun m => isToolResultMsg m && toolCallIdOf m == some id

/-- The per-result reduction applied when attaching results to a `tool_use`:
`output` is the first output block's code if that block is a `code` block,
otherwise `JSON.stringify` of the whole output array (`jstr` is the
runtime's `JSON.stringify`, passed as a parameter). -/
def reduceToolResult (jstr : List MessageContent → String) : ParsedMessage → ToolResult
  | .tool_result _ _ id output isError =>
    { output := match output.head? with
        | some (.code c _) => c
        | _ => jstr output
      isError := isError
      toolCallId := id }
  | _ => { output := jstr [], isError := false, toolCallId := none }

/-- One step of the correlator's main loop.  The accumulator carries the
`connectedCallIds` set (as a list) and the output list built so far (in
reverse is avoided by appending).  Mirrors the `for (const msg of
rawMessages)` body. -/
def correlateStep (jstr : List MessageContent → String) (ms : List ParsedMessage)
    (acc : List String × List ParsedMessage) (msg : ParsedMessage) :
    List String × List ParsedMessage :=
  let (connected, out) := acc
  match msg with
  | .tool_use ts name callId input results =>
    if jsTruthy callId && !(toolResultsFor ms (callId.getD "")).isEmpty then
      ((callId.getD "") :: connected,
        out ++ [.tool_use ts name callId input
          ((toolResultsFor ms (callId.getD "")).map (reduceToolResult jstr))])
    else
      (connected, out ++ [.tool_use ts name callId input results])
  | .tool_result ts name callId output isError =>
    if !(jsTruthy callId) || !(connected.contains (callId.getD "")) then
      if ms.any (fun m => isToolUseMsg m && toolCallIdOf m == callId) then
        (connected, out)
      else
        (connected, out ++ [.tool_result ts name callId output isError])
    else
      (connected, out)
  | other => (connected, out ++ [other])

/-- `connectToolResultsToToolUse` (ClaudeSessionParser): correlate
`tool_result`s to `tool_use`s by call identifier.  `jstr` is the runtime's
`JSON.stringify` on content arrays. -/
def connectToolResultsToToolUse (jstr : List MessageContent → String)
    (rawMessages : List ParsedMessage) : List ParsedMessage :=
  (rawMessages.foldl (correlateStep jstr rawMessages) ([], [])).2

/-- `connectToolOutputsToToolCalls` (CodexSessionParser) — textually
identical to the Claude parser's correlator. -/
def connectToolOutputsToToolCalls (jstr : List MessageContent → String)
    (rawMessages : List ParsedMessage) : List ParsedMessage :=
  connectToolResultsToToolUse jstr rawMessages

/-- Per-message characterization of the correlator's output (proved
equivalent to the fold below): a `tool_use` with a truthy identifier that
some `tool_result` carries is returned with the matched results attached;
a `tool_result` is dropped exactly when some `tool_use` has a
`===`-equal identifier (where two missing identifiers compare equal);
everything else passes through unchanged. -/
def correlateOut (jstr : List MessageContent → String) (ms : List ParsedMessage) :
    ParsedMessage → Option ParsedMessage
  | .tool_use ts name callId input results =>
    if jsTruthy callId && !(toolResultsFor ms (callId.getD "")).isEmpty then
      some (.tool_use ts name callId input
        ((toolResultsFor ms (callId.getD "")).map (reduceToolResult jstr)))
    else some (.tool_use ts name callId input results)
  | .tool_result ts name callId output isError =>
    if ms.any (fun m => isToolUseMsg m && toolCallIdOf m == callId) then none
    else some (.tool_result ts name callId output isError)
  | other => some other

/-! ## Search repository (`src/repository/SearchRepository.ts`) -/

/-- One row of the `search_messages` FTS5 table. -/
structure SearchEntry where
  content : String
  sessionId : String
  projectId : String
  cardType : String
  sessionTitle : String
  projectName : String
  timestamp : String
deriving DecidableEq

/-- `MAX_LIMIT` from `SearchRepository.ts`. -/
def MAX_LIMIT : Int := 100

/-- `escapeFts5Value`: double every double-quote character. -/
def escapeFts5Value (value : String) : String :=
  String.mk (value.data.flatMap fun c => if c = '"' then ['"', '"'] else [c])

/-- JavaScript `String#trim` restricted to its ASCII whitespace action. -/
def jsTrim (s : String) : String :=
  let ws : Char → Bool := fun c => c = ' ' || c = '\t' || c = '\n' || c = '\r' ||
    c = '\x0b' || c = '\x0c'
  String.mk ((s.data.dropWhile ws).reverse.dropWhile ws |>.reverse)

/-- `escapeFts5Query`: trim, and wrap in double quotes as a single literal
phrase (an empty query becomes `""`). -/
def escapeFts5Query (query : String) : String :=
  let trimmed := jsTrim query
  if trimmed = "" then "\"\"" else "\"" ++ escapeFts5Value trimmed ++ "\""

/-- SQLite `LIMIT` semantics: a non-negative limit truncates; a negative
limit means "no upper bound on the number of rows returned" (SQLite
documentation, "The LIMIT clause"). -/
def sqliteLimit (lim : Int) (rows : List SearchEntry) : List SearchEntry :=
  if lim < 0 then rows else rows.take lim.toNat

/-- `SearchRepository.search(query, limit)`.  The FTS5 engine evaluating
`search_messages MATCH ?` and the BM25/timestamp `ORDER BY` are external to
this repository and are passed as parameters: `ftsMatch q row` decides
`MATCH` against the escaped query `q`, and `order` is the `ORDER BY`
permutation applied to the matching rows.  The repository computes
`safeLimit = Math.min(limit, MAX_LIMIT)` and applies `LIMIT safeLimit`. -/
def SearchRepository.search (ftsMatch : String → SearchEntry → Bool)
    (order : List SearchEntry → List SearchEntry)
    (table : List SearchEntry) (query : String) (limit : Int) : List SearchEntry :=
  let safeLimit := min limit MAX_LIMIT
  let ftsQuery := escapeFts5Query query
  sqliteLimit safeLimit (order (table.filter (ftsMatch ftsQuery)))

/-- `SearchRepository.searchByProject(projectName, query, limit)` — same as
`search` plus the `project_name = ?` filter. -/
def SearchRepository.searchByProject (ftsMatch : String → SearchEntry → Bool)
    (order : List SearchEntry → List SearchEntry)
    (table : List SearchEntry) (projectName : String) (query : String) (limit : Int) :
    List SearchEntry :=
  let safeLimit := min limit MAX_LIMIT
  let ftsQuery := escapeFts5Query query
  sqliteLimit safeLimit
    (order (table.filter fun r => ftsMatch ftsQuery r && r.projectName == projectName))

/-! ## Tool input formatting (`src/utils/toolFormatter.ts`, `src/utils/diff.ts`) -/

/-- `ToolInputContent` — content blocks produced by the tool input
formatter. -/
inductive ToolInputContent where
  | text (text : String)
  | code (code : String) (language : Option String)
  | diff (oldText newText : String) (filePath : Option String)
deriving DecidableEq

/-- Auxiliary for `jsIncludes`: does `needle` occur as a contiguous
infix of `hay`? -/
def charsInclude (needle : List Char) : List Char → Bool
  | [] => needle.isEmpty
  | c :: rest => needle.isPrefixOf (c :: rest) || charsInclude needle rest

/-- JavaScript `String#includes`. -/
def jsIncludes (s sub : String) : Bool := charsInclude sub.data s.data

/-- Key normalization in `getParameterValue`:
`key.toLowerCase().replace(/_/g, '')`. -/
def normalizeParamKey (k : String) : String :=
  String.mk ((jsToLower k).data.filter (fun c => c ≠ '_'))

/-- `getParameterValue(parameters, ...normalizedKeys)` from `diff.ts`: for
each candidate key, first an exact-key lookup, then a scan of the entries
comparing normalized keys. -/
def getParameterValue (parameters : List (String × String)) (normalizedKeys : List String) :
    Option String :=
  normalizedKeys.findSome? fun nk =>
    match parameters.find? (fun kv => kv.1 == nk) with
    | some kv => some kv.2
    | none => (parameters.find? (fun kv => normalizeParamKey kv.1 == nk)).map (·.2)

/-- `DiffBuilder.stripWorkingDirectory`: strip a (truthy) working directory
prefix, then a single leading slash, from a file path. -/
def stripWorkingDirectory (filePath : String) (workingDir : Option String) : String :=
  match workingDir with
  | none => filePath
  | some wd =>
    if wd = "" then filePath
    else
      let wdChars := if wd.data.getLast? = some '/' then wd.data.dropLast else wd.data
      if wdChars.isPrefixOf filePath.data then
        let rest := filePath.data.drop wdChars.length
        String.mk (match rest with
          | '/' :: r => r
          | r => r)
      else filePath

/-- `ToolInputFormatter.formatEditDiffContent`. -/
def formatEditDiffContent (oldString newString : String)
    (parameters : List (String × String)) (cwd : Option String) : List ToolInputContent :=
  let filePath := getParameterValue parameters ["filepath", "path"]
  (match filePath with
   | some fp =>
     let strippedPath := if jsTruthy cwd then stripWorkingDirectory fp cwd else fp
     [ToolInputContent.text "file_path:", ToolInputContent.code strippedPath none]
   | none => []) ++
  [ToolInputContent.diff oldString newString filePath]

/-- `ToolInputFormatter.formatGenericToolInput`: each parameter becomes a
`text` block (its name) followed by a `code` block (its value). -/
def formatGenericToolInput (input : List (String × String)) : List ToolInputContent :=
  input.flatMap fun kv => [ToolInputContent.text kv.1, ToolInputContent.code kv.2 none]

/-- `ToolInputFormatter.formatInputWithPathStripping`. -/
def formatInputWithPathStripping (input : List (String × String)) (toolName : String)
    (cwd : Option String) : List ToolInputContent :=
  if jsIncludes (jsToLower toolName) "edit" then
    match getParameterValue input ["oldstring", "oldstr"],
        getParameterValue input ["newstring", "newstr"] with
    | some oldString, some newString => formatEditDiffContent oldString newString input cwd
    | _, _ => formatGenericToolInput input
  else formatGenericToolInput input

/-- `ToolInputFormatter.convertToMessageContent`. -/
def convertToMessageContent (content : List ToolInputContent) : List MessageContent :=
  content.map fun block =>
    match block with
    | .text t => MessageContent.text t
    | .code c lang => MessageContent.code c lang
    | .diff o n fp => MessageContent.diff o n fp

/-! ## Content cleaning (`src/utils/contentCleaner.ts`) -/

/-- The JavaScript `\s` class, restricted to its Latin-1 members (all text
this repository indexes is produced by its own parsers). -/
def isJsSpace (c : Char) : Bool :=
  c = ' ' || c = '\t' || c = '\n' || c = '\r' || c = '\x0b' || c = '\x0c' || c = ' '

/-- `replace(/\s+/g, ' ')`: collapse every maximal whitespace run to a
single space. -/
def collapseWs (l : List Char) : List Char :=
  l.foldr (fun c acc =>
    if isJsSpace c then
      match acc with
      | ' ' :: _ => acc
      | _ => ' ' :: acc
    else c :: acc) []

/-- `ContentCleaner.normalizeWhitespace`: collapse whitespace and trim. -/
def normalizeWhitespace (text : String) : String :=
  String.mk (((collapseWs text.data).dropWhile isJsSpace).reverse.dropWhile isJsSpace |>.reverse)

/-- The rest of the character list after the first `>`, if any. -/
def dropThroughGt : List Char → Option (List Char)
  | [] => none
  | c :: rest => if c = '>' then some rest else dropThroughGt rest

/-- `replace(/<[^>]*>/g, ' ')` on a character list, with explicit fuel
(`fuel ≥ l.length` at every call, so the fuel-exhausted branch is
unreachable): a `<` with a later `>` consumes everything up to that first
`>` and emits one space; a `<` with no following `>` is literal. -/
def stripHtmlAux : Nat → List Char → List Char
  | 0, l => l
  | _, [] => []
  | fuel + 1, c :: rest =>
    if c = '<' then
      match dropThroughGt rest with
      | some r => ' ' :: stripHtmlAux fuel r
      | none => c :: stripHtmlAux fuel rest
    else c :: stripHtmlAux fuel rest

/-- `replace(/<[^>]*>/g, ' ')`. -/
def stripHtmlTags (s : String) : String := String.mk (stripHtmlAux s.data.length s.data)

/-- `replace(/[{}\[\]",:]/g, ' ')` — JSON structural characters become
spaces. -/
def stripJsonChars (s : String) : String :=
  String.mk (s.data.map fun c =>
    if c = '\x7b' || c = '\x7d' || c = '[' || c = ']' || c = '"' || c = ',' || c = ':' then ' '
    else c)

/-- `ContentCleaner.extractText`: the searchable text of a content-block
list. -/
def extractText (content : List MessageContent) : String :=
  let parts := content.flatMap fun block =>
    match block with
    | .text t => [t]
    | .code c _ => [c]
    | .markdown m => [m]
    | .json j => [stripJsonChars j]
    | .diff o n _ => (if o ≠ "" then [o] else []) ++ (if n ≠ "" then [n] else [])
    | .html h => [stripHtmlTags h]
  normalizeWhitespace (String.intercalate " " parts)

/-! ## Primary store rows and tables
(`src/database.ts`, `src/repository/*.ts`)

Each table is a list of rows plus a `nextId` counter.  `content_json` and
`models_json` hold `JSON.stringify` serializations in SQLite; the model
stores the serialized values themselves (the serialization is an injective
formatting step). -/

/-- `SessionProvider`. -/
inductive SessionProvider where
  | claude_code
  | opencode
  | codex
  | amp
  | junie
  | kilocode
  | gemini
  | droid
deriving DecidableEq

/-- The card classification of a persisted renderable message. -/
inductive CardType where
  | user
  | assistant
  | thinking
  | toolUse
  | toolResult
  | info
  | error
deriving DecidableEq

/-- The string stored in the `card_type` column. -/
def cardTypeStr : CardType → String
  | .user => "user"
  | .assistant => "assistant"
  | .thinking => "thinking"
  | .toolUse => "tool-use"
  | .toolResult => "tool-result"
  | .info => "info"
  | .error => "error"

/-- The non-key columns of one `messages` row (everything except `id`,
`session_id` and `sequence`). -/
structure RenderData where
  cardType : CardType
  title : String
  subtitle : Option String
  content : List MessageContent
  timestamp : String
  canExpand : Bool
  isError : Bool
  createdAt : String
deriving DecidableEq

/-- One row of the `messages` table. -/
structure MsgRow where
  id : Nat
  sessionId : Nat
  sequence : Nat
  data : RenderData
deriving DecidableEq

/-- The `messages` table. -/
structure MsgTable where
  rows : List MsgRow
  nextId : Nat
deriving DecidableEq

/-- `MessageRepository.upsert`: `INSERT ... ON CONFLICT(session_id,
sequence) DO UPDATE SET <every non-key column> RETURNING id`.  A
conflicting row is rewritten in place keeping its `id`; otherwise a fresh
row is appended with the next `AUTOINCREMENT` id.  Returns the updated
table and the row id. -/
def MessageRepository.upsert (t : MsgTable) (sessionId sequence : Nat) (d : RenderData) :
    MsgTable × Nat :=
  match t.rows.find? (fun r => r.sessionId == sessionId && r.sequence == sequence) with
  | some r =>
    ({ t with rows := t.rows.map fun r' =>
        if r'.sessionId == sessionId && r'.sequence == sequence then { r' with data := d }
        else r' }, r.id)
  | none =>
    ({ rows := t.rows ++ [⟨t.nextId, sessionId, sequence, d⟩], nextId := t.nextId + 1 },
      t.nextId)

/-- `MessageRepository.deleteBySessionIdAndMinSequence`: `DELETE FROM
messages WHERE session_id = ? AND sequence > ?`. -/
def MessageRepository.deleteBySessionIdAndMinSequence (t : MsgTable) (sessionId minSequence : Nat) :
    MsgTable :=
  { t with rows := t.rows.filter fun r => !(r.sessionId == sessionId && r.sequence > minSequence) }

/-- The `UNIQUE(session_id, sequence)` constraint of the `messages` table
(`database.ts` schema): no two rows share a key.  Every reachable SQLite
state satisfies it; it is the well-formedness assumption on initial
stores. -/
def MsgWf (t : MsgTable) : Prop :=
  t.rows.Pairwise fun r1 r2 => ¬(r1.sessionId = r2.sessionId ∧ r1.sequence = r2.sequence)

/-- The row-wise effect of the upsert loop when every targeted key already
exists: a row of session `s` with sequence in `[k, k + ds.length)` gets its
data overwritten by the corresponding list entry; everything else is
untouched.  (Characterization device for `importMessagesLoop`.) -/
def overwriteRow (s k : Nat) (ds : List RenderData) (r : MsgRow) : MsgRow :=
  if r.sessionId = s ∧ k ≤ r.sequence ∧ r.sequence < k + ds.length then
    { r with data := ds.getD (r.sequence - k) r.data }
  else r

/-- The columns of one `sessions` row (without `id`). -/
structure SessionData where
  projectId : Nat
  sessionId : String
  title : String
  provider : SessionProvider
  version : Option String
  gitBranch : Option String
  cwd : Option String
  models : Option (List (String × Nat))
  created : Option String
  modified : Option String
  messageCount : Nat
  createdAt : String
  updatedAt : String
deriving DecidableEq

/-- One row of the `sessions` table. -/
structure SessRow where
  id : Nat
  data : SessionData
deriving DecidableEq

/-- The `sessions` table. -/
structure SessTable where
  rows : List SessRow
  nextId : Nat
deriving DecidableEq

/-- `SessionRepository.upsert`: upsert by `(project_id, session_id)`; the
`DO UPDATE` clause rewrites every column except `created_at` (and the key
columns); `RETURNING id` observes the surviving row id. -/
def SessionRepository.upsert (t : SessTable) (s : SessionData) : SessTable × Nat :=
  match t.rows.find? (fun r =>
      r.data.projectId == s.projectId && r.data.sessionId == s.sessionId) with
  | some r =>
    ({ t with rows := t.rows.map fun r' =>
        if r'.data.projectId == s.projectId && r'.data.sessionId == s.sessionId then
          { r' with data := { s with createdAt := r'.data.createdAt } }
        else r' }, r.id)
  | none => ({ rows := t.rows ++ [⟨t.nextId, s⟩], nextId := t.nextId + 1 }, t.nextId)

/-- The columns of one `projects` row (without `id`). -/
structure ProjectData where
  projectUuid : String
  name : String
  path : Option String
  createdAt : String
  updatedAt : String
deriving DecidableEq

/-- One row of the `projects` table. -/
structure ProjRow where
  id : Nat
  data : ProjectData
deriving DecidableEq

/-- The `projects` table. -/
structure ProjTable where
  rows : List ProjRow
  nextId : Nat
deriving DecidableEq

/-- `ProjectRepository.upsert`: upsert by `project_uuid`; the `DO UPDATE`
clause rewrites `name`, `path` and `updated_at` only. -/
def ProjectRepository.upsert (t : ProjTable) (p : ProjectData) : ProjTable × Nat :=
  match t.rows.find? (fun r => r.data.projectUuid == p.projectUuid) with
  | some r =>
    ({ t with rows := t.rows.map fun r' =>
        if r'.data.projectUuid == p.projectUuid then
          { r' with data :=
              { r'.data with name := p.name, path := p.path, updatedAt := p.updatedAt } }
        else r' }, r.id)
  | none => ({ rows := t.rows ++ [⟨t.nextId, p⟩], nextId := t.nextId + 1 }, t.nextId)

/-- The primary SQLite database (`DatabaseManager`). -/
structure Db where
  projects : ProjTable
  sessions : SessTable
  messages : MsgTable
deriving DecidableEq

/-! ## Search database state (`src/searchDatabase.ts` + `SearchRepository`)

`committed` is the durable table content; `pending` are the rows inserted
since the last `BEGIN TRANSACTION` (committed by `COMMIT`, discarded by
`ROLLBACK`).  `deleteBySessionId` runs in autocommit mode (the importer
calls it before opening the search transaction). -/

structure SearchDb where
  committed : List SearchEntry
  pending : List SearchEntry
deriving DecidableEq

/-- One observable operation of the importer's search-write phase. -/
inductive SearchOp where
  | del (sessionId : String)
  | begin
  | insert (e : SearchEntry)
  | commit
deriving DecidableEq

/-- Effect of one search operation. -/
def applySearchOp (db : SearchDb) : SearchOp → SearchDb
  | .del sid => { db with committed := db.committed.filter fun e => e.sessionId ≠ sid }
  | .begin => { db with pending := [] }
  | .insert e => { db with pending := db.pending ++ [e] }
  | .commit => { committed := db.committed ++ db.pending, pending := [] }

/-- `rollbackTransaction` on the search database. -/
def searchRollback (db : SearchDb) : SearchDb := { db with pending := [] }

/-- Run a list of search operations with fault injection: if
`fault = some k`, the operation at (0-based) position `idx + k` raises
before taking effect; the error value carries the state at the raise. -/
def runSearchOps (db : SearchDb) (ops : List SearchOp) (fault : Option Nat) (idx : Nat) :
    Except SearchDb SearchDb :=
  match ops with
  | [] => .ok db
  | op :: rest =>
    if fault == some idx then .error db
    else runSearchOps (applySearchOp db op) rest fault (idx + 1)

/-! ## Session importer (`src/adapters/sessionImporter.ts`) -/

/-- `SessionMetadata`. -/
structure SessionMetadata where
  version : Option String
  gitBranch : Option String
  cwd : Option String
  models : List (String × Nat)
  created : Option String
  modified : Option String
  messageCount : Nat
deriving DecidableEq

/-- `SessionDetail` — a normalizer's output unit. -/
structure SessionDetail where
  sessionId : String
  title : String
  messages : List ParsedMessage
  metadata : Option SessionMetadata
deriving DecidableEq

/-- `SessionWithProject` — the unit the importer batches by project. -/
structure SessionWithProject where
  session : SessionDetail
  provider : SessionProvider
  projectPath : String
  projectName : String
  title : Option String
  created : String
  updated : String
deriving DecidableEq

/-- `SessionImporter.convertToMessage`: `ParsedMessage` to renderable-card
columns.  `sessionId` and `sequence` are the row key supplied by the write
loop; the remaining columns depend only on the message, the `now`
string, and the working directory, so only those are computed here.  The
`default` branch of the source `switch` is unreachable over the closed
`ParsedMessage` union. -/
def convertToMessage (msg : ParsedMessage) (now : String) (cwd : Option String) : RenderData :=
  match msg with
  | .user ts content => ⟨.user, "user", none, content, ts, true, false, now⟩
  | .assistant_text ts content => ⟨.assistant, "text", none, content, ts, true, false, now⟩
  | .assistant_thinking ts thinking =>
    ⟨.thinking, "thinking", none, [.text thinking], ts, true, false, now⟩
  | .tool_use ts toolName _ input _ =>
    ⟨.toolUse, "tool_use", some toolName,
      convertToMessageContent (formatInputWithPathStripping input toolName cwd),
      ts, true, false, now⟩
  | .tool_result ts _ callId output isError =>
    ⟨.toolResult, "tool_result", callId.map (fun s => String.mk (s.data.take 24)),
      output, ts, true, isError, now⟩
  | .info ts title subtitle content style =>
    let isErrorStyle := style = InfoStyle.error
    ⟨if isErrorStyle then .error else .info, title, subtitle,
      (match content with
       | some c => [c]
       | none => [.text ("[" ++ title ++ "]")]),
      ts, true, isErrorStyle, now⟩

/-- The message-upsert loop of `importSession`
(`sessionDetail.messages.forEach((message, index) => ...)`), starting at
sequence `k`.  The intervening batch commits (`MSG_BATCH_SIZE`) do not
change the final table state on the fault-free primary path and are
therefore not reflected in the state. -/
def importMessagesLoop (t : MsgTable) (dbSessionId k : Nat) : List RenderData → MsgTable
  | [] => t
  | d :: rest =>
    importMessagesLoop (MessageRepository.upsert t dbSessionId k d).1 dbSessionId (k + 1) rest

/-- The session title used by `importSession`:
`sessionWithProject.title || sessionDetail.title`. -/
def importTitle (swp : SessionWithProject) : String :=
  if jsTruthy swp.title then swp.title.getD "" else swp.session.title

/-- The `sessions` row data built by `importSession`. -/
def sessionDataOf (swp : SessionWithProject) (projectId : Nat) : SessionData :=
  { projectId := projectId
    sessionId := swp.session.sessionId
    title := importTitle swp
    provider := swp.provider
    version := swp.session.metadata.bind (·.version)
    gitBranch := swp.session.metadata.bind (·.gitBranch)
    cwd := swp.session.metadata.bind (·.cwd)
    models := swp.session.metadata.map (·.models)
    created := swp.session.metadata.bind (·.created)
    modified := swp.session.metadata.bind (·.modified)
    messageCount := swp.session.messages.length
    createdAt := swp.created
    updatedAt := swp.updated }

/-- The renderable rows of a session, in sequence order. -/
def renderableRows (swp : SessionWithProject) : List RenderData :=
  swp.session.messages.map fun m =>
    convertToMessage m swp.created (swp.session.metadata.bind (·.cwd))

/-- The primary-store phase of `importSession`: upsert the session row,
upsert one `messages` row per message keyed by `(session, sequence)`, and
delete the rows with `sequence > lastSequence` — skipped entirely when the
session has no messages (`lastSequence` stays `-1`).  Returns the updated
database and the session row id. -/
def importSessionPrimary (swp : SessionWithProject) (projectId : Nat) (db : Db) : Db × Nat :=
  let up := SessionRepository.upsert db.sessions (sessionDataOf swp projectId)
  let dbSessionId := up.2
  let ds := renderableRows swp
  let msgTable := importMessagesLoop db.messages dbSessionId 0 ds
  let msgTable' :=
    if ds.isEmpty then msgTable
    else MessageRepository.deleteBySessionIdAndMinSequence msgTable dbSessionId (ds.length - 1)
  ({ projects := db.projects, sessions := up.1, messages := msgTable' }, dbSessionId)

/-- `SEARCH_BATCH_SIZE` from `importSession`. -/
def SEARCH_BATCH_SIZE : Nat := 50

/-- The operation script of the search-write phase of `importSession`:
delete the session's rows (autocommit), begin, then per renderable message
insert a row when its extracted text is truthy, committing and reopening
the transaction after every `SEARCH_BATCH_SIZE`-th message, and a final
commit. -/
def searchScript (swp : SessionWithProject) (projectUuid : String) (rows : List RenderData) :
    List SearchOp :=
  SearchOp.del swp.session.sessionId :: SearchOp.begin ::
    (rows.enum.flatMap fun p =>
      (let text := extractText p.2.content
       if text ≠ "" then
         [SearchOp.insert
           { content := text
             sessionId := swp.session.sessionId
             projectId := projectUuid
             cardType := cardTypeStr p.2.cardType
             sessionTitle := importTitle swp
             projectName := swp.projectName
             timestamp := p.2.timestamp }]
       else []) ++
      (if (p.1 + 1) % SEARCH_BATCH_SIZE = 0 then [SearchOp.commit, SearchOp.begin] else [])) ++
    [SearchOp.commit]

/-- `importSession`, both phases, with fault injection into the search
phase (`searchFault = some k` makes the `k`-th search operation raise).
The search phase sits in a `try`/`catch` that logs, rolls the search
transaction back and does not rethrow, so the function returns normally
with the primary writes in place. -/
def importSession (swp : SessionWithProject) (projectId : Nat) (projectUuid : String)
    (db : Db) (sdb : SearchDb) (searchFault : Option Nat) : Except (Db × SearchDb) (Db × SearchDb) :=
  let db1 := (importSessionPrimary swp projectId db).1
  let script := searchScript swp projectUuid (renderableRows swp)
  match runSearchOps sdb script searchFault 0 with
  | .ok sdb1 => .ok (db1, sdb1)
  | .error sdbAtFailure => .ok (db1, searchRollback sdbAtFailure)

/-- The two counters aggregated by `importAll` (`importedCount`,
`errorCount`).  `importAll` itself is `async ... : Promise<void>`: these
counts are printed to the console at the end of the run, not returned to
the caller, and no counter of skipped sessions exists. -/
structure ImportRunCounts where
  imported : Nat
  errors : Nat
deriving DecidableEq

/-- Appending a session to the (unique) group carrying its project name. -/
def groupExtend (name : String) (s : SessionWithProject)
    (g : String × List SessionWithProject) : String × List SessionWithProject :=
  if g.1 == name then (g.1, g.2 ++ [s]) else g

/-- One step of the grouping fold: extend the existing group for the
session's project name, or open a new group at the end. -/
def groupStep (acc : List (String × List SessionWithProject)) (s : SessionWithProject) :
    List (String × List SessionWithProject) :=
  if acc.any (fun g => g.1 == s.projectName) then acc.map (groupExtend s.projectName s)
  else acc ++ [(s.projectName, [s])]

/-- `groupSessionsByProject`: group by `projectName`, preserving
first-occurrence key order and per-key session order (a JavaScript object
used as a dictionary). -/
def groupSessionsByProject (sessions : List SessionWithProject) :
    List (String × List SessionWithProject) :=
  sessions.foldl groupStep []

/-- `Math.min(...)` over a list (`importAll` applies it to a non-empty
group, so the empty case is unreachable). -/
def listMinInt : List Int → Int
  | [] => 0
  | x :: xs => xs.foldl min x

/-- `Math.max(...)` over a list (same remark). -/
def listMaxInt : List Int → Int
  | [] => 0
  | x :: xs => xs.foldl max x

/-- One session of a project group inside `importAll`'s loop: skip the
session when its `projectPath` is falsy or `"unknown"`, otherwise import it
(fault-free) and count the import or the error. -/
def importSessionStep (projectId : Nat) (projectUuid : String)
    (acc2 : Db × SearchDb × ImportRunCounts) (swp : SessionWithProject) :
    Db × SearchDb × ImportRunCounts :=
  if swp.projectPath = "" || swp.projectPath = "unknown" then acc2
  else
    match importSession swp projectId projectUuid acc2.1 acc2.2.1 none with
    | .ok (db', sdb') => (db', sdb', { acc2.2.2 with imported := acc2.2.2.imported + 1 })
    | .error (db', sdb') => (db', sdb', { acc2.2.2 with errors := acc2.2.2.errors + 1 })

/-- The per-project body of `importAll`'s main loop: compute the project
timestamps (via the runtime's date parser `parseDate` and ISO formatter
`isoOfMs`), upsert the project, then import each session of the group,
skipping sessions whose `projectPath` is falsy or `"unknown"`, counting
the imports and the errors. -/
def importProjectGroup (parseDate : String → Int) (isoOfMs : Int → String)
    (acc : Db × SearchDb × ImportRunCounts) (group : String × List SessionWithProject) :
    Db × SearchDb × ImportRunCounts :=
  let projectName := group.1
  let sessions := group.2
  let projectPath := sessions.head?.map (·.projectPath)
  let projectCreatedAt :=
    toDateTimeString isoOfMs (listMinInt (sessions.map fun s => parseDate s.created))
  let projectUpdatedAt :=
    toDateTimeString isoOfMs (listMaxInt (sessions.map fun s => parseDate s.updated))
  let projectUuid :=
    generateProjectUuid (if jsTruthy projectPath then projectPath.getD "" else projectName)
  let up := ProjectRepository.upsert acc.1.projects
    { projectUuid := projectUuid
      name := projectName
      path := projectPath
      createdAt := projectCreatedAt
      updatedAt := projectUpdatedAt }
  let projectId := up.2
  let db0 := { acc.1 with projects := up.1 }
  sessions.foldl (importSessionStep projectId projectUuid) (db0, acc.2.1, acc.2.2)

/-- `importAll`: concatenate every adapter's sessions (adapters are run in
sequence), drop sessions with a falsy `projectName`, group by project
name, and import group by group.  The returned `ImportRunCounts` is the
summary the source prints at the end of the run (the TypeScript function's
own return type is `Promise<void>`). -/
def importAll (adapters : List (List SessionWithProject)) (parseDate : String → Int)
    (isoOfMs : Int → String) (db : Db) (sdb : SearchDb) : Db × SearchDb × ImportRunCounts :=
  let allSessions := adapters.flatMap id
  let validSessions := allSessions.filter fun s => s.projectName ≠ ""
  let sessionsByProject := groupSessionsByProject validSessions
  sessionsByProject.foldl (importProjectGroup parseDate isoOfMs) (db, sdb, ⟨0, 0⟩)

/-- Sessions that `importAll` skips rather than imports (falsy project
name, or falsy/`"unknown"` project path).  This count is **not** part of
`ImportRunCounts`: the source maintains no such counter. -/
def skippedSessionsOf (adapters : List (List SessionWithProject)) : List SessionWithProject :=
  (adapters.flatMap id).filter fun s =>
    s.projectName = "" || s.projectPath = "" || s.projectPath = "unknown"

/-- The primary database of an `importSession` outcome (either way the
result carries the primary state). -/
def primaryOf : Except (Db × SearchDb) (Db × SearchDb) → Db
  | .ok (d, _) => d
  | .error (d, _) => d

/-! ### Concrete evaluation instances -/

/-- An empty primary database. -/
def wDb0 : Db := ⟨⟨[], 1⟩, ⟨[], 1⟩, ⟨[], 1⟩⟩

/-- An empty search database. -/
def wSdb0 : SearchDb := ⟨[], []⟩

/-- A one-message session located under project `p`. -/
def wSwp : SessionWithProject :=
  { session := { sessionId := "s", title := "t",
                 messages := [.user "2024-01-01T00:00:00.000Z" [.text "hi"]],
                 metadata := none }
    provider := .claude_code
    projectPath := "/p"
    projectName := "p"
    title := none
    created := "2024-01-01T00:00:00.000Z"
    updated := "2024-01-02T00:00:00.000Z" }

/-- The primary state after one import of `wSwp`. -/
def wDbOnce : Db := (importSessionPrimary wSwp 1 wDb0).1

/-- The search state after one import of `wSwp`. -/
def wS1 : SearchDb :=
  match runSearchOps wSdb0 (searchScript wSwp "u" (renderableRows wSwp)) none 0 with
  | .ok s => s
  | .error s => searchRollback s

/-- The primary state after re-importing `wSwp`. -/
def wDbTwice : Db := (importSessionPrimary wSwp 1 wDbOnce).1

/-- The search state after re-importing `wSwp` on a fresh search store. -/
def wS2 : SearchDb :=
  match runSearchOps wSdb0 (searchScript wSwp "u" (renderableRows wSwp)) none 0 with
  | .ok s => s
  | .error s => searchRollback s

/-- `wSwp` with the same session identifier and an empty message list (a
re-import that shrank to zero messages). -/
def wSwpShort : SessionWithProject :=
  { session := { sessionId := "s", title := "t", messages := [], metadata := none }
    provider := .claude_code
    projectPath := "/p"
    projectName := "p"
    title := none
    created := "2024-01-03T00:00:00.000Z"
    updated := "2024-01-04T00:00:00.000Z" }

/-- A two-message session with the same session identifier as `wSwp` (the
previously-persisted longer version for the truncation scenario). -/
def wSwpN2 : SessionWithProject :=
  { session := { sessionId := "s", title := "t",
                 messages := [.user "2024-01-01T00:00:00.000Z" [.text "hi"],
                              .assistant_text "2024-01-01T00:00:01.000Z" [.text "yo"]],
                 metadata := none }
    provider := .claude_code
    projectPath := "/p"
    projectName := "p"
    title := none
    created := "2024-01-01T00:00:00.000Z"
    updated := "2024-01-02T00:00:00.000Z" }

/-- The primary state after importing the two-message session `wSwpN2`. -/
def wDbN2 : Db := (importSessionPrimary wSwpN2 1 wDb0).1

/-- The search state after importing `wSwpN2`. -/
def wSN2 : SearchDb :=
  match runSearchOps wSdb0 (searchScript wSwpN2 "u" (renderableRows wSwpN2)) none 0 with
  | .ok s => s
  | .error s => searchRollback s

/-- The primary state after re-importing the shrunk one-message session
`wSwp` over `wDbN2`. -/
def wDbM1 : Db := (importSessionPrimary wSwp 1 wDbN2).1

/-- A session with an empty project name (dropped by `importAll` before
grouping). -/
def wSwpNoName : SessionWithProject :=
  { session := { sessionId := "s2", title := "t", messages := [], metadata := none }
    provider := .claude_code
    projectPath := "/p"
    projectName := ""
    title := none
    created := "2024-01-01T00:00:00.000Z"
    updated := "2024-01-02T00:00:00.000Z" }

/-! ### UUID format predicates -/

/-- A lowercase hexadecimal digit. -/
def HexLower (c : Char) : Prop :=
  c ∈ "0123456789abcdef".data

instance (c : Char) : Decidable (HexLower c) := by unfold HexLower; infer_instance

/-- A character list that is a well-formed RFC 4122 version-5 UUID: five
hyphen-separated lowercase-hex groups of lengths 8-4-4-4-12, the third group
starting with `5` and the fourth with one of `8`, `9`, `a`, `b`. -/
def UuidFormatted (l : List Char) : Prop :=
  ∃ g1 g2 g3 g4 g5 : List Char,
    l = g1 ++ '-' :: (g2 ++ '-' :: (g3 ++ '-' :: (g4 ++ '-' :: g5))) ∧
    g1.length = 8 ∧ g2.length = 4 ∧ g3.length = 4 ∧ g4.length = 4 ∧ g5.length = 12 ∧
    (∀ c, c ∈ g1 ++ g2 ++ g3 ++ g4 ++ g5 → HexLower c) ∧
    g3.head? = some '5' ∧
    ∃ c4, g4.head? = some c4 ∧ c4 ∈ ['8', '9', 'a', 'b']

/-! # Theorems -/

/-! ## C5 — project identity under path normalization -/

/-- C5: `generateProjectUuid` depends on its argument only through
`normalizeProjectPath` (backslashes to forward slashes, one trailing
separator removed, lowercased), so any two raw paths with equal normal
forms receive the identical project identifier. -/
theorem generateProjectUuid_eq_of_normalize_eq (p q : String)
    (h : normalizeProjectPath p = normalizeProjectPath q) :
    generateProjectUuid p = generateProjectUuid q := by
  unfold generateProjectUuid
  rw [h]

/-- Witness for C5 at the spec's own example: `"/Home/User/Proj/"` and
`"/home/user/proj"` normalize identically, hence share one identifier. -/
theorem generateProjectUuid_eq_of_normalize_eq_witness :
    normalizeProjectPath "/Home/User/Proj/" = normalizeProjectPath "/home/user/proj" ∧
    generateProjectUuid "/Home/User/Proj/" = generateProjectUuid "/home/user/proj" :=
  ⟨by decide, generateProjectUuid_eq_of_normalize_eq "/Home/User/Proj/" "/home/user/proj"
    (by decide)⟩

/-! ## C8 — timestamp unit detection threshold -/

/-- C8 counterexample: the boundary value `10^12` is **not** treated as a
millisecond timestamp — `toDateTimeString` computes
`timestamp > 1_000_000_000_000`, which is false at exactly `10^12`, so the
value is multiplied by 1000 (second semantics), contradicting the claim
that every value `≥ 10^12` is converted as-is. -/
theorem toDateTimeMs_boundary_is_seconds :
    toDateTimeMs 1000000000000 = 1000000000000000 ∧
    toDateTimeMs 1000000000000 ≠ 1000000000000 := by
  constructor
  · decide
  · decide

/-- C8 (amended): `toDateTimeString` treats an epoch integer as
milliseconds (converted as-is) exactly when it is **strictly greater**
than `10^12`, and as seconds (multiplied by 1000) when it is `≤ 10^12`;
the boundary value `10^12` itself falls in the seconds branch. -/
theorem toDateTimeMs_unit_detection (t : Int) :
    (t > 1000000000000 → toDateTimeMs t = t) ∧
    (t ≤ 1000000000000 → toDateTimeMs t = 1000 * t) := by
  constructor
  · intro h
    simp [toDateTimeMs, h]
  · intro h
    have : ¬(t > 1000000000000) := by omega
    simp [toDateTimeMs, this]
    ring

/-- Witness for C8 (amended) at `2 * 10^12` (milliseconds branch) and at
the boundary `10^12` (seconds branch). -/
theorem toDateTimeMs_unit_detection_witness :
    toDateTimeMs 2000000000000 = 2000000000000 ∧ toDateTimeMs 1000000000000 = 1000 * 1000000000000 :=
  ⟨(toDateTimeMs_unit_detection 2000000000000).1 (by decide),
   (toDateTimeMs_unit_detection 1000000000000).2 (by decide)⟩

/-! ## C10 — UUID v5 well-formedness -/

/-- Hex digits of values below 16 are lowercase hex characters. -/
theorem hexDigitChar_hexLower : ∀ n, n < 16 → HexLower (hexDigitChar n) := by decide

/-- High nibble of a byte is a hex character. -/
theorem hexLower_hi (x : Nat) (h : x < 256) : HexLower (hexDigitChar (x / 16)) :=
  hexDigitChar_hexLower _ (by omega)

/-- Low nibble is a hex character. -/
theorem hexLower_lo (x : Nat) : HexLower (hexDigitChar (x % 16)) :=
  hexDigitChar_hexLower _ (by omega)

/-- `r ||| 0x50` on a nibble is plain addition. -/
theorem nat_or80 : ∀ r, r < 16 → r ||| 80 = r + 80 := by decide

/-- `r ||| 0x80` on a six-bit value is plain addition. -/
theorem nat_or128 : ∀ r, r < 64 → r ||| 128 = r + 128 := by decide

/-- `x &&& 0x0f` is below 16. -/
theorem and15_lt (x : Nat) : x &&& 15 < 16 :=
  lt_of_le_of_lt Nat.and_le_right (by norm_num)

/-- `x &&& 0x3f` is below 64. -/
theorem and63_lt (x : Nat) : x &&& 63 < 64 :=
  lt_of_le_of_lt Nat.and_le_right (by norm_num)

/-- The high nibble of the forced version byte is always `'5'`. -/
theorem version_head (x : Nat) : hexDigitChar ((x &&& 15 ||| 80) / 16) = '5' := by
  have h := and15_lt x
  rw [nat_or80 _ h, show ((x &&& 15) + 80) / 16 = 5 from by omega]
  decide

/-- The version byte's high nibble is hex. -/
theorem version_hi_hex (x : Nat) : HexLower (hexDigitChar ((x &&& 15 ||| 80) / 16)) := by
  rw [version_head]
  decide

/-- Auxiliary enumeration for the variant nibble. -/
theorem variant_mem : ∀ r, r < 64 → hexDigitChar ((r + 128) / 16) ∈ ['8', '9', 'a', 'b'] := by
  decide

/-- The high nibble of the forced variant byte is one of `8`, `9`, `a`, `b`. -/
theorem variant_head_mem (x : Nat) :
    hexDigitChar ((x &&& 63 ||| 128) / 16) ∈ ['8', '9', 'a', 'b'] := by
  have h := and63_lt x
  rw [nat_or128 _ h]
  exact variant_mem _ h

/-- The variant byte's high nibble is hex. -/
theorem variant_hi_hex (x : Nat) : HexLower (hexDigitChar ((x &&& 63 ||| 128) / 16)) := by
  have h := and63_lt x
  rw [nat_or128 _ h]
  exact hexDigitChar_hexLower _ (by omega)

set_option maxHeartbeats 2000000 in
/-- Core format lemma: hex-encoding any 20 bytes after the version/variant
fix-up yields a well-formed 36-character UUID v5 layout. -/
theorem uuidBytes_formatted (b0 b1 b2 b3 b4 b5 b6 b7 b8 b9 b10 b11 b12 b13 b14 b15 b16 b17 b18 b19 : Nat)
    (h0 : b0 < 256) (h1 : b1 < 256) (h2 : b2 < 256) (h3 : b3 < 256) (h4 : b4 < 256)
    (h5 : b5 < 256) (h7 : b7 < 256) (h9 : b9 < 256) (h10 : b10 < 256) (h11 : b11 < 256)
    (h12 : b12 < 256) (h13 : b13 < 256) (h14 : b14 < 256) (h15 : b15 < 256) :
    UuidFormatted (uuidCharsOf ((applyVersionVariant
      [b0, b1, b2, b3, b4, b5, b6, b7, b8, b9, b10, b11, b12, b13, b14, b15, b16, b17, b18, b19]).flatMap hexByte)) ∧
    (uuidCharsOf ((applyVersionVariant
      [b0, b1, b2, b3, b4, b5, b6, b7, b8, b9, b10, b11, b12, b13, b14, b15, b16, b17, b18, b19]).flatMap hexByte)).length = 36 := by
  constructor
  · refine ⟨[hexDigitChar (b0 / 16), hexDigitChar (b0 % 16), hexDigitChar (b1 / 16),
      hexDigitChar (b1 % 16), hexDigitChar (b2 / 16), hexDigitChar (b2 % 16),
      hexDigitChar (b3 / 16), hexDigitChar (b3 % 16)],
      [hexDigitChar (b4 / 16), hexDigitChar (b4 % 16), hexDigitChar (b5 / 16),
       hexDigitChar (b5 % 16)],
      [hexDigitChar ((b6 &&& 15 ||| 80) / 16), hexDigitChar ((b6 &&& 15 ||| 80) % 16),
       hexDigitChar (b7 / 16), hexDigitChar (b7 % 16)],
      [hexDigitChar ((b8 &&& 63 ||| 128) / 16), hexDigitChar ((b8 &&& 63 ||| 128) % 16),
       hexDigitChar (b9 / 16), hexDigitChar (b9 % 16)],
      [hexDigitChar (b10 / 16), hexDigitChar (b10 % 16), hexDigitChar (b11 / 16),
       hexDigitChar (b11 % 16), hexDigitChar (b12 / 16), hexDigitChar (b12 % 16),
       hexDigitChar (b13 / 16), hexDigitChar (b13 % 16), hexDigitChar (b14 / 16),
       hexDigitChar (b14 % 16), hexDigitChar (b15 / 16), hexDigitChar (b15 % 16)],
      rfl, rfl, rfl, rfl, rfl, rfl, ?_, ?_, ⟨_, rfl, variant_head_mem b8⟩⟩
    · intro c hc
      fin_cases hc
      all_goals first
        | exact version_hi_hex b6
        | exact variant_hi_hex b8
        | exact hexLower_lo _
        | exact hexLower_hi _ (by assumption)
    · rw [List.head?_cons, version_head]
  · rfl

/-- Any hashed message yields a well-formed, 36-character UUID layout. -/
theorem uuid_msg_formatted (msg : List Nat) :
    UuidFormatted (uuidCharsOf (uuidHexChars msg)) ∧
    (uuidCharsOf (uuidHexChars msg)).length = 36 :=
  uuidBytes_formatted
    ((sha1 msg).a / 2 ^ 24 % 256) ((sha1 msg).a / 2 ^ 16 % 256)
    ((sha1 msg).a / 2 ^ 8 % 256) ((sha1 msg).a % 256)
    ((sha1 msg).b / 2 ^ 24 % 256) ((sha1 msg).b / 2 ^ 16 % 256)
    ((sha1 msg).b / 2 ^ 8 % 256) ((sha1 msg).b % 256)
    ((sha1 msg).c / 2 ^ 24 % 256) ((sha1 msg).c / 2 ^ 16 % 256)
    ((sha1 msg).c / 2 ^ 8 % 256) ((sha1 msg).c % 256)
    ((sha1 msg).d / 2 ^ 24 % 256) ((sha1 msg).d / 2 ^ 16 % 256)
    ((sha1 msg).d / 2 ^ 8 % 256) ((sha1 msg).d % 256)
    ((sha1 msg).e / 2 ^ 24 % 256) ((sha1 msg).e / 2 ^ 16 % 256)
    ((sha1 msg).e / 2 ^ 8 % 256) ((sha1 msg).e % 256)
    (Nat.mod_lt _ (by norm_num)) (Nat.mod_lt _ (by norm_num)) (Nat.mod_lt _ (by norm_num))
    (Nat.mod_lt _ (by norm_num)) (Nat.mod_lt _ (by norm_num)) (Nat.mod_lt _ (by norm_num))
    (Nat.mod_lt _ (by norm_num)) (Nat.mod_lt _ (by norm_num)) (Nat.mod_lt _ (by norm_num))
    (Nat.mod_lt _ (by norm_num)) (Nat.mod_lt _ (by norm_num)) (Nat.mod_lt _ (by norm_num))
    (Nat.mod_lt _ (by norm_num)) (Nat.mod_lt _ (by norm_num))

/-- C10: `generateProjectUuid` always returns a 36-character string in five
hyphen-separated lowercase-hex groups of lengths 8-4-4-4-12 with the
version-5 nibble `'5'` heading the third group and an RFC 4122 variant
nibble (`8`/`9`/`a`/`b`) heading the fourth, and it is deterministic:
equal inputs give equal outputs. -/
theorem generateProjectUuid_uuid_v5_format (s : String) :
    UuidFormatted (generateProjectUuid s).data ∧
    (generateProjectUuid s).length = 36 ∧
    (∀ t, s = t → generateProjectUuid s = generateProjectUuid t) := by
  refine ⟨?_, ?_, ?_⟩
  · exact (uuid_msg_formatted
      (strBytes PROJECT_NAMESPACE ++ strBytes (normalizeProjectPath s))).1
  · exact (uuid_msg_formatted
      (strBytes PROJECT_NAMESPACE ++ strBytes (normalizeProjectPath s))).2
  · intro t ht
    rw [ht]

/-- Witness for C10 at the concrete input `"/tmp/project"`, discharging the
determinism hypothesis with `rfl`. -/
theorem generateProjectUuid_uuid_v5_format_witness :
    UuidFormatted (generateProjectUuid "/tmp/project").data ∧
    generateProjectUuid "/tmp/project" = generateProjectUuid "/tmp/project" :=
  ⟨(generateProjectUuid_uuid_v5_format "/tmp/project").1,
   (generateProjectUuid_uuid_v5_format "/tmp/project").2.2 "/tmp/project" rfl⟩

/-! ## Correlator characterization (shared by C2 and C3) -/

/-- A truthy optional string is a `some` of a non-empty string. -/
theorem jsTruthy_iff (o : Option String) : jsTruthy o = true ↔ ∃ s, o = some s ∧ s ≠ "" := by
  cases o with
  | none => simp [jsTruthy]
  | some s => simp [jsTruthy]

/-- The correlator's fold equals `filterMap correlateOut`, for any
accumulator whose `connectedCallIds` entries all stem from `tool_use`
messages of the full stream. -/
theorem correlate_foldl_eq (jstr : List MessageContent → String) (ms : List ParsedMessage) :
    ∀ (rest : List ParsedMessage) (connected : List String) (out : List ParsedMessage),
      (∀ m ∈ rest, m ∈ ms) →
      (∀ c ∈ connected, ∃ m ∈ ms, isToolUseMsg m = true ∧ toolCallIdOf m = some c) →
      (rest.foldl (correlateStep jstr ms) (connected, out)).2 =
        out ++ rest.filterMap (correlateOut jstr ms) := by
  intro rest
  induction rest with
  | nil => intro connected out _ _; simp
  | cons m rest ih =>
    intro connected out hsub hconn
    have hmem : m ∈ ms := hsub m (List.mem_cons_self m rest)
    have hsub' : ∀ x ∈ rest, x ∈ ms := fun x hx => hsub x (List.mem_cons_of_mem m hx)
    rw [List.foldl_cons, List.filterMap_cons]
    match m with
    | .user ts content =>
      rw [show correlateStep jstr ms (connected, out) (.user ts content) =
        (connected, out ++ [.user ts content]) from rfl]
      rw [ih connected _ hsub' hconn]
      simp [correlateOut]
    | .assistant_text ts content =>
      rw [show correlateStep jstr ms (connected, out) (.assistant_text ts content) =
        (connected, out ++ [.assistant_text ts content]) from rfl]
      rw [ih connected _ hsub' hconn]
      simp [correlateOut]
    | .assistant_thinking ts th =>
      rw [show correlateStep jstr ms (connected, out) (.assistant_thinking ts th) =
        (connected, out ++ [.assistant_thinking ts th]) from rfl]
      rw [ih connected _ hsub' hconn]
      simp [correlateOut]
    | .info ts title sub content style =>
      rw [show correlateStep jstr ms (connected, out) (.info ts title sub content style) =
        (connected, out ++ [.info ts title sub content style]) from rfl]
      rw [ih connected _ hsub' hconn]
      simp [correlateOut]
    | .tool_use ts name callId input results =>
      by_cases hcond : (jsTruthy callId && !(toolResultsFor ms (callId.getD "")).isEmpty) = true
      · have hstep : correlateStep jstr ms (connected, out) (.tool_use ts name callId input results) =
            ((callId.getD "") :: connected,
              out ++ [.tool_use ts name callId input
                ((toolResultsFor ms (callId.getD "")).map (reduceToolResult jstr))]) := by
          simp only [correlateStep, hcond, if_true]
        rw [hstep]
        have hconn' : ∀ c ∈ (callId.getD "") :: connected,
            ∃ m ∈ ms, isToolUseMsg m = true ∧ toolCallIdOf m = some c := by
          intro c hc
          rcases List.mem_cons.mp hc with hc | hc
          · subst hc
            obtain ⟨s, hs, _⟩ := (jsTruthy_iff callId).mp (Bool.and_elim_left hcond)
            exact ⟨.tool_use ts name callId input results, hmem, rfl, by simp [toolCallIdOf, hs]⟩
          · exact hconn c hc
        rw [ih _ _ hsub' hconn']
        simp only [correlateOut, hcond, if_true, Option.some.injEq]
        simp
      · have hstep : correlateStep jstr ms (connected, out) (.tool_use ts name callId input results) =
            (connected, out ++ [.tool_use ts name callId input results]) := by
          simp only [correlateStep, hcond, if_false, Bool.false_eq_true]
        rw [hstep]
        rw [ih connected _ hsub' hconn]
        simp only [correlateOut, hcond, if_false, Bool.false_eq_true]
        simp
    | .tool_result ts name callId output isError =>
      by_cases hany : (ms.any fun x => isToolUseMsg x && toolCallIdOf x == callId) = true
      · -- the result is consumed: both the step and `correlateOut` drop it
        have hstep : correlateStep jstr ms (connected, out) (.tool_result ts name callId output isError) =
            (connected, out) := by
          by_cases hc1 : (!(jsTruthy callId) || !(connected.contains (callId.getD ""))) = true
          · simp only [correlateStep, hc1, if_true, hany]
          · simp only [correlateStep, hc1, if_false, Bool.false_eq_true]
        rw [hstep, ih connected _ hsub' hconn]
        simp only [correlateOut, hany, if_true, List.filterMap_cons]
      · -- kept: no tool_use matches the identifier, so the shortcut set
        -- cannot contain it either
        have hnotin : (!(jsTruthy callId) || !(connected.contains (callId.getD ""))) = true := by
          cases hjt : jsTruthy callId with
          | false => simp
          | true =>
            obtain ⟨s, hs, hne⟩ := (jsTruthy_iff callId).mp hjt
            subst hs
            cases hct : connected.contains s with
            | false => simpa using hct
            | true =>
              exfalso
              have hsmem : s ∈ connected := by simpa using hct
              obtain ⟨mu, hmu, hmu1, hmu2⟩ := hconn s hsmem
              apply hany
              refine List.any_eq_true.mpr ⟨mu, hmu, ?_⟩
              simp [hmu1, hmu2]
        have hstep : correlateStep jstr ms (connected, out) (.tool_result ts name callId output isError) =
            (connected, out ++ [.tool_result ts name callId output isError]) := by
          simp only [correlateStep, hnotin, if_true, hany, if_false, Bool.false_eq_true]
        rw [hstep, ih connected _ hsub' hconn]
        simp only [correlateOut, hany, if_false, Bool.false_eq_true]
        simp

/-- The correlator is exactly `filterMap correlateOut`. -/
theorem connectToolResultsToToolUse_eq (jstr : List MessageContent → String)
    (ms : List ParsedMessage) :
    connectToolResultsToToolUse jstr ms = ms.filterMap (correlateOut jstr ms) := by
  unfold connectToolResultsToToolUse
  rw [correlate_foldl_eq jstr ms ms [] [] (fun m hm => hm) (by simp)]
  simp

/-- `correlateOut` never changes a message's tool-call identifier. -/
theorem correlateOut_callId (jstr : List MessageContent → String) (ms : List ParsedMessage)
    (m m' : ParsedMessage) (h : correlateOut jstr ms m = some m') :
    toolCallIdOf m' = toolCallIdOf m := by
  match m with
  | .user ts c => simp [correlateOut] at h; subst h; rfl
  | .assistant_text ts c => simp [correlateOut] at h; subst h; rfl
  | .assistant_thinking ts th => simp [correlateOut] at h; subst h; rfl
  | .info ts t st c sty => simp [correlateOut] at h; subst h; rfl
  | .tool_use ts name callId input results =>
    simp only [correlateOut] at h
    split at h <;> (simp only [Option.some.injEq] at h; subst h; rfl)
  | .tool_result ts name callId output isError =>
    simp only [correlateOut] at h
    split at h
    · exact absurd h (by simp)
    · simp only [Option.some.injEq] at h; subst h; rfl

/-! ## C2 — correlation of a `tool_use`/`tool_result` pair -/

/-- C2: in a stream containing a `tool_use` named `"Read"` with identifier
`"c1"` and, anywhere later, a `tool_result` for `"c1"` whose output is the
single code block `"file contents"` — and no other message mentioning
`"c1"` — the correlator's output contains exactly one message with
identifier `"c1"`: the `tool_use`, its `results` being
`[{output := "file contents", isError := false, toolCallId := "c1"}]`;
no standalone `tool_result` with identifier `"c1"` remains. -/
theorem correlate_read_scenario (jstr : List MessageContent → String)
    (pre mid post : List ParsedMessage) (ts1 ts2 : String)
    (input : List (String × String)) (results0 : List ToolResult)
    (rname lang : Option String)
    (hfresh : ∀ m ∈ pre ++ mid ++ post, toolCallIdOf m ≠ some "c1") :
    (connectToolResultsToToolUse jstr
        (pre ++ ParsedMessage.tool_use ts1 "Read" (some "c1") input results0 ::
          (mid ++ ParsedMessage.tool_result ts2 rname (some "c1")
            [MessageContent.code "file contents" lang] false :: post))).filter
        (fun m => toolCallIdOf m == some "c1") =
      [ParsedMessage.tool_use ts1 "Read" (some "c1") input
        [⟨"file contents", false, some "c1"⟩]] ∧
    ∀ m ∈ connectToolResultsToToolUse jstr
        (pre ++ ParsedMessage.tool_use ts1 "Read" (some "c1") input results0 ::
          (mid ++ ParsedMessage.tool_result ts2 rname (some "c1")
            [MessageContent.code "file contents" lang] false :: post)),
      ¬(isToolResultMsg m = true ∧ toolCallIdOf m = some "c1") := by
  have hfr1 : ∀ m ∈ pre, toolCallIdOf m ≠ some "c1" := fun m hm =>
    hfresh m (by simp [hm])
  have hfr2 : ∀ m ∈ mid, toolCallIdOf m ≠ some "c1" := fun m hm =>
    hfresh m (by simp [hm])
  have hfr3 : ∀ m ∈ post, toolCallIdOf m ≠ some "c1" := fun m hm =>
    hfresh m (by simp [hm])
  set tu := ParsedMessage.tool_use ts1 "Read" (some "c1") input results0 with htu
  set tr := ParsedMessage.tool_result ts2 rname (some "c1")
    [MessageContent.code "file contents" lang] false with htr
  set ms := pre ++ tu :: (mid ++ tr :: post) with hms
  have hres : toolResultsFor ms "c1" = [tr] := by
    unfold toolResultsFor
    rw [hms, List.filter_append, List.filter_cons, List.filter_append, List.filter_cons]
    have e1 : pre.filter (fun m => isToolResultMsg m && toolCallIdOf m == some "c1") = [] := by
      refine List.filter_eq_nil.mpr fun m hm => ?_
      simp [hfr1 m hm]
    have e2 : mid.filter (fun m => isToolResultMsg m && toolCallIdOf m == some "c1") = [] := by
      refine List.filter_eq_nil.mpr fun m hm => ?_
      simp [hfr2 m hm]
    have e3 : post.filter (fun m => isToolResultMsg m && toolCallIdOf m == some "c1") = [] := by
      refine List.filter_eq_nil.mpr fun m hm => ?_
      simp [hfr3 m hm]
    rw [e1, e2, e3]
    simp [htu, htr, isToolResultMsg, toolCallIdOf]
  have htuo : correlateOut jstr ms tu = some (ParsedMessage.tool_use ts1 "Read" (some "c1") input
      [⟨"file contents", false, some "c1"⟩]) := by
    rw [htu]
    simp only [correlateOut, hres]
    simp [jsTruthy, reduceToolResult, htr, hres]
  have htro : correlateOut jstr ms tr = none := by
    rw [htr]
    simp only [correlateOut]
    rw [if_pos]
    refine List.any_eq_true.mpr ⟨tu, ?_, ?_⟩
    · rw [hms]; simp
    · simp [htu, isToolUseMsg, toolCallIdOf]
  have hout : connectToolResultsToToolUse jstr ms =
      (pre.filterMap (correlateOut jstr ms)) ++
        (ParsedMessage.tool_use ts1 "Read" (some "c1") input
          [⟨"file contents", false, some "c1"⟩] ::
          ((mid.filterMap (correlateOut jstr ms)) ++ (post.filterMap (correlateOut jstr ms)))) := by
    rw [connectToolResultsToToolUse_eq]
    conv_lhs => rw [hms]
    rw [List.filterMap_append, List.filterMap_cons, htuo, List.filterMap_append,
      List.filterMap_cons, htro]
  have hfm : ∀ (l : List ParsedMessage), (∀ m ∈ l, toolCallIdOf m ≠ some "c1") →
      ∀ m' ∈ l.filterMap (correlateOut jstr ms), toolCallIdOf m' ≠ some "c1" := by
    intro l hl m' hm'
    obtain ⟨m, hm, hfm⟩ := List.mem_filterMap.mp hm'
    rw [correlateOut_callId jstr ms m m' hfm]
    exact hl m hm
  constructor
  · rw [hout, List.filter_append, List.filter_cons, List.filter_append]
    have f1 : (pre.filterMap (correlateOut jstr ms)).filter
        (fun m => toolCallIdOf m == some "c1") = [] := by
      refine List.filter_eq_nil.mpr fun m hm => ?_
      simp [hfm pre hfr1 m hm]
    have f2 : (mid.filterMap (correlateOut jstr ms)).filter
        (fun m => toolCallIdOf m == some "c1") = [] := by
      refine List.filter_eq_nil.mpr fun m hm => ?_
      simp [hfm mid hfr2 m hm]
    have f3 : (post.filterMap (correlateOut jstr ms)).filter
        (fun m => toolCallIdOf m == some "c1") = [] := by
      refine List.filter_eq_nil.mpr fun m hm => ?_
      simp [hfm post hfr3 m hm]
    rw [f1, f2, f3]
    simp [toolCallIdOf]
  · intro m hm
    rw [hout] at hm
    rcases List.mem_append.mp hm with hm | hm
    · rintro ⟨-, hid⟩
      exact hfm pre hfr1 m hm hid
    · rcases List.mem_cons.mp hm with rfl | hm
      · rintro ⟨hres', -⟩
        simp [isToolResultMsg] at hres'
      · rcases List.mem_append.mp hm with hm | hm
        · rintro ⟨-, hid⟩
          exact hfm mid hfr2 m hm hid
        · rintro ⟨-, hid⟩
          exact hfm post hfr3 m hm hid

/-- Witness for C2 at the smallest instance of the scenario. -/
theorem correlate_read_scenario_witness :
    (connectToolResultsToToolUse (fun _ => "")
        ([] ++ ParsedMessage.tool_use "t1" "Read" (some "c1") [] [] ::
          ([] ++ ParsedMessage.tool_result "t2" none (some "c1")
            [MessageContent.code "file contents" none] false :: []))).filter
        (fun m => toolCallIdOf m == some "c1") =
      [ParsedMessage.tool_use "t1" "Read" (some "c1") []
        [⟨"file contents", false, some "c1"⟩]] :=
  (correlate_read_scenario (fun _ => "") [] [] [] "t1" "t2" [] [] none none
    (by intro m hm; simp at hm)).1

/-! ## C3 — retention of uncorrelated `tool_result`s -/

/-- If `correlateOut` outputs a `tool_result`, the input was that very
message (correlated `tool_use`s stay `tool_use`s; other kinds pass through
unchanged). -/
theorem correlateOut_toolResult_src (jstr : List MessageContent → String)
    (ms : List ParsedMessage) (m : ParsedMessage) (ts : String) (name callId : Option String)
    (output : List MessageContent) (isError : Bool)
    (h : correlateOut jstr ms m = some (.tool_result ts name callId output isError)) :
    m = .tool_result ts name callId output isError := by
  match m with
  | .user _ _ => simp [correlateOut] at h
  | .assistant_text _ _ => simp [correlateOut] at h
  | .assistant_thinking _ _ => simp [correlateOut] at h
  | .info _ _ _ _ _ => simp [correlateOut] at h
  | .tool_use _ _ _ _ _ =>
    simp only [correlateOut] at h
    split at h <;> simp at h
  | .tool_result ts' name' callId' output' isError' =>
    simp only [correlateOut] at h
    split at h
    · exact absurd h (by simp)
    · simpa using h

/-- Counting a kept `tool_result` through `filterMap correlateOut`. -/
theorem count_filterMap_correlateOut (jstr : List MessageContent → String)
    (ms : List ParsedMessage) (ts : String) (name callId : Option String)
    (output : List MessageContent) (isError : Bool)
    (hkeep : correlateOut jstr ms (.tool_result ts name callId output isError) =
      some (.tool_result ts name callId output isError)) :
    ∀ l : List ParsedMessage,
      (l.filterMap (correlateOut jstr ms)).count
          (ParsedMessage.tool_result ts name callId output isError) =
        l.count (ParsedMessage.tool_result ts name callId output isError) := by
  intro l
  induction l with
  | nil => rfl
  | cons m t ih =>
    rw [List.filterMap_cons]
    by_cases hm : m = ParsedMessage.tool_result ts name callId output isError
    · subst hm
      rw [hkeep]
      simp [List.count_cons, ih]
    · cases hfm : correlateOut jstr ms m with
      | none =>
        rw [List.count_cons, if_neg (by simpa using hm)]
        simpa using ih
      | some m' =>
        have hm' : m' ≠ ParsedMessage.tool_result ts name callId output isError := by
          intro he
          subst he
          exact hm (correlateOut_toolResult_src jstr ms m ts name callId output isError hfm)
        rw [List.count_cons, if_neg (by simpa using hm'),
          List.count_cons, if_neg (by simpa using hm)]
        simpa using ih

/-- C3 counterexample: in the stream `[tool_use (no identifier),
tool_result (no identifier)]` the `tool_result` has no `toolCallId`
(so the claim says it must be retained as a standalone message), yet the
correlator **drops** it: the missing identifiers compare `===`-equal in the
`hasMatchingToolUse` scan, so the output stream contains no `tool_result`
at all. -/
theorem correlate_noId_dropped_counterexample :
    (ParsedMessage.tool_result "t2" none none [] false) ∈
      ([ParsedMessage.tool_use "t1" "Bash" none [] [],
        ParsedMessage.tool_result "t2" none none [] false] : List ParsedMessage) ∧
    toolCallIdOf (ParsedMessage.tool_result "t2" none none [] false) = none ∧
    (ParsedMessage.tool_result "t2" none none [] false) ∉
      connectToolResultsToToolUse (fun _ => "")
        [ParsedMessage.tool_use "t1" "Bash" none [] [],
         ParsedMessage.tool_result "t2" none none [] false] := by
  refine ⟨by decide, by decide, by decide⟩

/-- C3 (amended): a `tool_result` is retained unchanged (all its
occurrences survive) whenever **no** `tool_use` in the list carries a
`===`-equal `toolCallId` — where a missing identifier compares equal to a
missing identifier.  In particular a `tool_result` whose identifier is
absent from every `tool_use` is retained; but a `tool_result` with no
identifier is dropped when some `tool_use` also has no identifier. -/
theorem uncorrelated_tool_result_retained (jstr : List MessageContent → String)
    (ms : List ParsedMessage) (ts : String) (name callId : Option String)
    (output : List MessageContent) (isError : Bool)
    (hno : ¬∃ m ∈ ms, isToolUseMsg m = true ∧ toolCallIdOf m = callId) :
    (connectToolResultsToToolUse jstr ms).count
        (ParsedMessage.tool_result ts name callId output isError) =
      ms.count (ParsedMessage.tool_result ts name callId output isError) := by
  have hkeep : correlateOut jstr ms (.tool_result ts name callId output isError) =
      some (.tool_result ts name callId output isError) := by
    simp only [correlateOut]
    rw [if_neg]
    intro hany
    obtain ⟨m, hm, hp⟩ := List.any_eq_true.mp hany
    exact hno ⟨m, hm, by simpa using (Bool.and_elim_left hp),
      by simpa using (Bool.and_elim_right hp)⟩
  rw [connectToolResultsToToolUse_eq]
  exact count_filterMap_correlateOut jstr ms ts name callId output isError hkeep ms

/-- Witness for C3 (amended): a `tool_result` with identifier `"z"`, while
the only `tool_use` has identifier `"y"`, survives correlation. -/
theorem uncorrelated_tool_result_retained_witness :
    (connectToolResultsToToolUse (fun _ => "")
        [ParsedMessage.tool_use "t1" "Bash" (some "y") [] [],
         ParsedMessage.tool_result "t2" none (some "z") [] false]).count
        (ParsedMessage.tool_result "t2" none (some "z") [] false) =
      [ParsedMessage.tool_use "t1" "Bash" (some "y") [] [],
        ParsedMessage.tool_result "t2" none (some "z") [] false].count
        (ParsedMessage.tool_result "t2" none (some "z") [] false) :=
  uncorrelated_tool_result_retained (fun _ => "") _ "t2" none (some "z") [] false
    (by decide)

/-! ## C6 — search result count capping -/

/-- C6 counterexample: with 101 indexed rows all matching the query, a
caller-requested limit of `-1` yields **101** results.
`Math.min(-1, 100) = -1` is handed to SQLite's `LIMIT`, and a negative
`LIMIT` means *no upper bound* (SQLite documentation), so the configured
maximum of 100 is exceeded. -/
theorem search_limit_counterexample :
    (SearchRepository.search (fun _ _ => true) id
        (List.replicate 101 ⟨"c", "s", "p", "t", "ti", "pn", "ts"⟩) "q" (-1)).length = 101 ∧
    100 < (SearchRepository.search (fun _ _ => true) id
        (List.replicate 101 ⟨"c", "s", "p", "t", "ti", "pn", "ts"⟩) "q" (-1)).length := by
  constructor
  · rfl
  · rw [show (SearchRepository.search (fun _ _ => true) id
      (List.replicate 101 ⟨"c", "s", "p", "t", "ti", "pn", "ts"⟩) "q" (-1)).length = 101 from rfl]
    omega

/-- C6 (amended): for every query and every **non-negative**
caller-requested limit, `search` and `searchByProject` return at most
`MAX_LIMIT = 100` rows, for every behaviour of the FTS5 match predicate
and of the `ORDER BY` permutation.  (A negative limit is passed to SQLite
unclamped, where it means "no bound" — see the counterexample.) -/
theorem search_results_capped (ftsMatch : String → SearchEntry → Bool)
    (order : List SearchEntry → List SearchEntry) (table : List SearchEntry)
    (projectName query : String) (limit : Int) (hlim : 0 ≤ limit) :
    (SearchRepository.search ftsMatch order table query limit).length ≤ 100 ∧
    (SearchRepository.searchByProject ftsMatch order table projectName query limit).length ≤ 100 := by
  constructor
  · unfold SearchRepository.search sqliteLimit
    rw [if_neg (by unfold MAX_LIMIT; omega)]
    calc (List.take (min limit MAX_LIMIT).toNat
          (order (table.filter (ftsMatch (escapeFts5Query query))))).length
        ≤ (min limit MAX_LIMIT).toNat := by
          rw [List.length_take]
          omega
      _ ≤ 100 := by unfold MAX_LIMIT; omega
  · unfold SearchRepository.searchByProject sqliteLimit
    rw [if_neg (by unfold MAX_LIMIT; omega)]
    calc (List.take (min limit MAX_LIMIT).toNat
          (order (table.filter fun r =>
            ftsMatch (escapeFts5Query query) r && r.projectName == projectName))).length
        ≤ (min limit MAX_LIMIT).toNat := by
          rw [List.length_take]
          omega
      _ ≤ 100 := by unfold MAX_LIMIT; omega

/-- Witness for C6 (amended) at a caller-requested limit of 200 on a
table of 101 matching rows: both entry points return at most 100 rows. -/
theorem search_results_capped_witness :
    (SearchRepository.search (fun _ _ => true) id
        (List.replicate 101 ⟨"c", "s", "p", "t", "ti", "pn", "ts"⟩) "q" 200).length ≤ 100 ∧
    (SearchRepository.searchByProject (fun _ _ => true) id
        (List.replicate 101 ⟨"c", "s", "p", "t", "ti", "pn", "ts"⟩) "pn" "q" 200).length ≤ 100 :=
  search_results_capped (fun _ _ => true) id
    (List.replicate 101 ⟨"c", "s", "p", "t", "ti", "pn", "ts"⟩) "pn" "q" 200 (by omega)

/-! ## Message-table lemmas (shared by C1 and C4) -/

/-- An upsert leaves every row with a different key untouched. -/
theorem msgUpsert_preserves (t : MsgTable) (s q : Nat) (d : RenderData) (r : MsgRow)
    (hr : r ∈ t.rows) (hk : ¬(r.sessionId = s ∧ r.sequence = q)) :
    r ∈ (MessageRepository.upsert t s q d).1.rows := by
  unfold MessageRepository.upsert
  cases hf : t.rows.find? (fun x => x.sessionId == s && x.sequence == q) with
  | some r0 =>
    simp only
    refine List.mem_map.mpr ⟨r, hr, ?_⟩
    rw [if_neg (by simpa using hk)]
  | none =>
    simp only
    exact List.mem_append_left _ hr

/-- After an upsert, a row with the upserted key and data is present. -/
theorem msgUpsert_present (t : MsgTable) (s q : Nat) (d : RenderData) :
    ∃ r ∈ (MessageRepository.upsert t s q d).1.rows,
      r.sessionId = s ∧ r.sequence = q ∧ r.data = d := by
  unfold MessageRepository.upsert
  cases hf : t.rows.find? (fun x => x.sessionId == s && x.sequence == q) with
  | some r0 =>
    have hp := List.find?_some hf
    have hmem := List.mem_of_find?_eq_some hf
    simp only [Bool.and_eq_true, beq_iff_eq] at hp
    simp only
    refine ⟨{ r0 with data := d }, List.mem_map.mpr ⟨r0, hmem, ?_⟩, hp.1, hp.2, rfl⟩
    rw [if_pos (by simp [hp.1, hp.2])]
  | none =>
    simp only
    exact ⟨⟨t.nextId, s, q, d⟩, List.mem_append_right _ (by simp), rfl, rfl, rfl⟩

/-- Backward analysis of an upsert: every row of the result is an
untouched old row with a different key, or carries the upserted key and
data. -/
theorem msgUpsert_backward (t : MsgTable) (s q : Nat) (d : RenderData) (r : MsgRow)
    (hr : r ∈ (MessageRepository.upsert t s q d).1.rows) :
    (r ∈ t.rows ∧ ¬(r.sessionId = s ∧ r.sequence = q)) ∨
      (r.sessionId = s ∧ r.sequence = q ∧ r.data = d) := by
  unfold MessageRepository.upsert at hr
  cases hf : t.rows.find? (fun x => x.sessionId == s && x.sequence == q) with
  | some r0 =>
    rw [hf] at hr
    simp only at hr
    obtain ⟨r1, hr1, he⟩ := List.mem_map.mp hr
    by_cases hk : r1.sessionId = s ∧ r1.sequence = q
    · rw [if_pos (by simp [hk.1, hk.2])] at he
      right
      rw [← he]
      exact ⟨hk.1, hk.2, rfl⟩
    · rw [if_neg (by simpa using hk)] at he
      left
      rw [← he]
      exact ⟨hr1, hk⟩
  | none =>
    rw [hf] at hr
    simp only at hr
    rcases List.mem_append.mp hr with hr | hr
    · left
      refine ⟨hr, ?_⟩
      have := List.find?_eq_none.mp hf r hr
      simpa using this
    · right
      simp only [List.mem_singleton] at hr
      rw [hr]
      exact ⟨rfl, rfl, rfl⟩

/-- When the key is already present, an upsert is a pure in-place map (no
row is created, `nextId` does not advance). -/
theorem msgUpsert_master (t : MsgTable) (s q : Nat) (d : RenderData)
    (hp : ∃ r ∈ t.rows, r.sessionId = s ∧ r.sequence = q) :
    (MessageRepository.upsert t s q d).1 =
      { t with rows := t.rows.map fun r =>
          if r.sessionId = s ∧ r.sequence = q then { r with data := d } else r } := by
  unfold MessageRepository.upsert
  cases hf : t.rows.find? (fun x => x.sessionId == s && x.sequence == q) with
  | some r0 =>
    simp only
    congr 1
    apply List.map_congr_left
    intro r _
    by_cases hk : r.sessionId = s ∧ r.sequence = q
    · rw [if_pos (by simp [hk.1, hk.2]), if_pos hk]
    · rw [if_neg (by simpa using hk), if_neg hk]
  | none =>
    exfalso
    obtain ⟨r, hr, h1, h2⟩ := hp
    have := List.find?_eq_none.mp hf r hr
    simp [h1, h2] at this

/-- An upsert preserves the `UNIQUE(session_id, sequence)` invariant. -/
theorem msgUpsert_wf (t : MsgTable) (s q : Nat) (d : RenderData) (hwf : MsgWf t) :
    MsgWf (MessageRepository.upsert t s q d).1 := by
  unfold MessageRepository.upsert
  cases hf : t.rows.find? (fun x => x.sessionId == s && x.sequence == q) with
  | some r0 =>
    simp only [MsgWf]
    rw [List.pairwise_map]
    refine hwf.imp ?_
    intro a b hab
    by_cases ha : a.sessionId = s ∧ a.sequence = q <;>
      by_cases hb : b.sessionId = s ∧ b.sequence = q <;>
        simp [ha, hb] at hab ⊢ <;> tauto
  | none =>
    simp only [MsgWf]
    rw [List.pairwise_append]
    refine ⟨hwf, List.pairwise_singleton _ _, ?_⟩
    intro a ha b hb
    simp only [List.mem_singleton] at hb
    subst hb
    have := List.find?_eq_none.mp hf a ha
    simp only [Bool.and_eq_true, beq_iff_eq, not_and] at this
    simp only
    rintro ⟨h1, h2⟩
    exact this h1 h2

/-- The upsert loop leaves rows outside the written key range untouched. -/
theorem importMessagesLoop_preserves (ds : List RenderData) :
    ∀ (t : MsgTable) (s k : Nat) (r : MsgRow), r ∈ t.rows →
      (r.sessionId ≠ s ∨ r.sequence < k ∨ r.sequence ≥ k + ds.length) →
      r ∈ (importMessagesLoop t s k ds).rows := by
  induction ds with
  | nil => intro t s k r hr _; exact hr
  | cons d rest ih =>
    intro t s k r hr hout
    rw [importMessagesLoop]
    refine ih _ s (k + 1) r ?_ ?_
    · refine msgUpsert_preserves t s k d r hr ?_
      rintro ⟨h1, h2⟩
      rcases hout with h | h | h
      · exact h h1
      · omega
      · simp only [List.length_cons] at h; omega
    · rcases hout with h | h | h
      · exact Or.inl h
      · right; left; omega
      · right; right; simp only [List.length_cons] at h; omega

/-- After the upsert loop, every targeted key is present and carries the
corresponding list entry. -/
theorem importMessagesLoop_present (ds : List RenderData) :
    ∀ (t : MsgTable) (s k j : Nat), j < ds.length →
      ∃ r ∈ (importMessagesLoop t s k ds).rows,
        r.sessionId = s ∧ r.sequence = k + j ∧ ds[j]? = some r.data := by
  induction ds with
  | nil => intro t s k j hj; simp at hj
  | cons d rest ih =>
    intro t s k j hj
    rw [importMessagesLoop]
    match j with
    | 0 =>
      obtain ⟨r, hr, h1, h2, h3⟩ := msgUpsert_present t s k d
      refine ⟨r, ?_, h1, by omega, by rw [List.getElem?_cons_zero, h3]⟩
      refine importMessagesLoop_preserves rest _ s (k + 1) r hr ?_
      right; left; omega
    | j + 1 =>
      obtain ⟨r, hr, h1, h2, h3⟩ := ih (MessageRepository.upsert t s k d).1 s (k + 1) j
        (by simpa using Nat.lt_of_succ_lt_succ hj)
      exact ⟨r, hr, h1, by omega, by simpa using h3⟩

/-- Backward analysis of the upsert loop: every resulting row is an
untouched old row whose key lies outside the written range, or carries a
written key together with the matching list entry as data. -/
theorem importMessagesLoop_backward (ds : List RenderData) :
    ∀ (t : MsgTable) (s k : Nat) (r : MsgRow), r ∈ (importMessagesLoop t s k ds).rows →
      (r ∈ t.rows ∧ (r.sessionId ≠ s ∨ r.sequence < k ∨ r.sequence ≥ k + ds.length)) ∨
      (r.sessionId = s ∧ k ≤ r.sequence ∧ r.sequence < k + ds.length ∧
        ds[r.sequence - k]? = some r.data) := by
  induction ds with
  | nil =>
    intro t s k r hr
    left
    refine ⟨hr, ?_⟩
    by_cases h : r.sessionId = s
    · right
      simp only [List.length_nil]
      omega
    · exact Or.inl h
  | cons d rest ih =>
    intro t s k r hr
    rw [importMessagesLoop] at hr
    rcases ih _ s (k + 1) r hr with ⟨hmem, hout⟩ | ⟨h1, h2, h3, h4⟩
    · rcases msgUpsert_backward t s k d r hmem with ⟨hm0, hk0⟩ | ⟨h1, h2, h3⟩
      · left
        refine ⟨hm0, ?_⟩
        rcases hout with h | h | h
        · exact Or.inl h
        · by_cases hs : r.sessionId = s
          · right; left
            rcases Nat.lt_or_ge r.sequence k with h' | h'
            · exact h'
            · exfalso; exact hk0 ⟨hs, by omega⟩
          · exact Or.inl hs
        · right; right; simp only [List.length_cons]; omega
      · right
        refine ⟨h1, by omega, by simp only [List.length_cons]; omega, ?_⟩
        rw [h2]
        simp [h3]
    · right
      refine ⟨h1, by omega, by simp only [List.length_cons]; omega, ?_⟩
      have : r.sequence - k = (r.sequence - (k + 1)) + 1 := by omega
      rw [this]
      simpa using h4

/-- The upsert loop preserves the uniqueness invariant. -/
theorem importMessagesLoop_wf (ds : List RenderData) :
    ∀ (t : MsgTable) (s k : Nat), MsgWf t → MsgWf (importMessagesLoop t s k ds) := by
  induction ds with
  | nil => intro t s k hwf; exact hwf
  | cons d rest ih =>
    intro t s k hwf
    rw [importMessagesLoop]
    exact ih _ s (k + 1) (msgUpsert_wf t s k d hwf)

/-- When every targeted key already exists, the whole upsert loop is a pure
in-place map: no row is created and `nextId` does not advance. -/
theorem importMessagesLoop_master (ds : List RenderData) :
    ∀ (t : MsgTable) (s k : Nat),
      (∀ j, j < ds.length → ∃ r ∈ t.rows, r.sessionId = s ∧ r.sequence = k + j) →
      importMessagesLoop t s k ds = { t with rows := t.rows.map (overwriteRow s k ds) } := by
  induction ds with
  | nil =>
    intro t s k _
    rw [importMessagesLoop]
    have hmap : t.rows.map (overwriteRow s k []) = t.rows := by
      have h : ∀ r ∈ t.rows, overwriteRow s k [] r = r := by
        intro r _
        unfold overwriteRow
        rw [if_neg]
        rintro ⟨-, h2, h3⟩
        simp only [List.length_nil] at h3
        omega
      rw [List.map_congr_left h]
      simp
    rw [hmap]
  | cons d rest ih =>
    intro t s k hp
    rw [importMessagesLoop]
    have hp0 : ∃ r ∈ t.rows, r.sessionId = s ∧ r.sequence = k := by
      obtain ⟨r, hr, h1, h2⟩ := hp 0 (by simp)
      exact ⟨r, hr, h1, by omega⟩
    rw [msgUpsert_master t s k d hp0]
    rw [ih _ s (k + 1) ?_]
    · congr 1
      rw [List.map_map]
      apply List.map_congr_left
      intro r _
      simp only [Function.comp_apply]
      by_cases hk : r.sessionId = s ∧ r.sequence = k
      · rw [if_pos hk]
        unfold overwriteRow
        rw [if_neg (by rintro ⟨-, h2, -⟩; simp only at h2; omega)]
        rw [if_pos ⟨hk.1, by omega, by simp only [List.length_cons]; omega⟩]
        rw [hk.2, Nat.sub_self]
        rfl
      · rw [if_neg hk]
        unfold overwriteRow
        by_cases hin : r.sessionId = s ∧ k + 1 ≤ r.sequence ∧ r.sequence < k + 1 + rest.length
        · rw [if_pos hin, if_pos ⟨hin.1, by omega, by simp only [List.length_cons]; omega⟩]
          have harith : r.sequence - k = (r.sequence - (k + 1)) + 1 := by omega
          rw [harith]
          simp [List.getD_cons_succ]
        · rw [if_neg hin, if_neg]
          rintro ⟨h1, h2, h3⟩
          simp only [List.length_cons] at h3
          by_cases hq : r.sequence = k
          · exact hk ⟨h1, hq⟩
          · exact hin ⟨h1, by omega, by omega⟩
    · intro j hj
      obtain ⟨r, hr, h1, h2⟩ := hp (j + 1) (by simp only [List.length_cons]; omega)
      refine ⟨if r.sessionId = s ∧ r.sequence = k then { r with data := d } else r,
        List.mem_map_of_mem _ hr, ?_⟩
      split <;> exact ⟨h1, by omega⟩

/-- Membership after the trailing delete. -/
theorem msgDelete_mem (t : MsgTable) (s m : Nat) (r : MsgRow) :
    r ∈ (MessageRepository.deleteBySessionIdAndMinSequence t s m).rows ↔
      r ∈ t.rows ∧ ¬(r.sessionId = s ∧ r.sequence > m) := by
  unfold MessageRepository.deleteBySessionIdAndMinSequence
  rw [List.mem_filter]
  constructor
  · rintro ⟨h1, h2⟩
    refine ⟨h1, fun hk => ?_⟩
    rw [Bool.not_eq_true'] at h2
    simp [hk.1, hk.2] at h2
  · rintro ⟨h1, h2⟩
    refine ⟨h1, ?_⟩
    rw [Bool.not_eq_true']
    by_cases ha : r.sessionId = s
    · have hb : ¬(r.sequence > m) := fun hgt => h2 ⟨ha, hgt⟩
      simp [ha, hb]
    · simp [ha]

/-- The trailing delete preserves the uniqueness invariant. -/
theorem msgDelete_wf (t : MsgTable) (s m : Nat) (hwf : MsgWf t) :
    MsgWf (MessageRepository.deleteBySessionIdAndMinSequence t s m) :=
  hwf.sublist (List.filter_sublist _)

/-! ## Session-table lemmas (shared by C1 and C4) -/

/-- Re-upserting a session with the same `(project_id, session_id)` key
returns the same row id, and with identical data it leaves the whole table
unchanged. -/
theorem sessUpsert_restable (t : SessTable) (sd1 sd2 : SessionData)
    (hp : sd2.projectId = sd1.projectId) (hs : sd2.sessionId = sd1.sessionId) :
    (SessionRepository.upsert (SessionRepository.upsert t sd1).1 sd2).2 =
      (SessionRepository.upsert t sd1).2 ∧
    (sd2 = sd1 →
      SessionRepository.upsert (SessionRepository.upsert t sd1).1 sd2 =
        SessionRepository.upsert t sd1) := by
  have hpred : (fun x : SessRow =>
      x.data.projectId == sd2.projectId && x.data.sessionId == sd2.sessionId) =
      (fun x : SessRow =>
        x.data.projectId == sd1.projectId && x.data.sessionId == sd1.sessionId) := by
    funext x
    rw [hp, hs]
  unfold SessionRepository.upsert
  cases hf : t.rows.find? (fun x =>
      x.data.projectId == sd1.projectId && x.data.sessionId == sd1.sessionId) with
  | some r0 =>
    simp only
    have hfind2 : (t.rows.map fun r' =>
        if r'.data.projectId == sd1.projectId && r'.data.sessionId == sd1.sessionId then
          { r' with data := { sd1 with createdAt := r'.data.createdAt } }
        else r').find? (fun x =>
          x.data.projectId == sd2.projectId && x.data.sessionId == sd2.sessionId) =
        some (if r0.data.projectId == sd1.projectId && r0.data.sessionId == sd1.sessionId then
          { r0 with data := { sd1 with createdAt := r0.data.createdAt } } else r0) := by
      rw [List.find?_map]
      rw [show ((fun x : SessRow =>
          x.data.projectId == sd2.projectId && x.data.sessionId == sd2.sessionId) ∘
          (fun r' : SessRow =>
            if r'.data.projectId == sd1.projectId && r'.data.sessionId == sd1.sessionId then
              { r' with data := { sd1 with createdAt := r'.data.createdAt } }
            else r')) = (fun x : SessRow =>
          x.data.projectId == sd1.projectId && x.data.sessionId == sd1.sessionId) from ?_]
      · rw [hf]
        rfl
      · funext x
        simp only [Function.comp_apply]
        by_cases hk : x.data.projectId = sd1.projectId ∧ x.data.sessionId = sd1.sessionId
        · rw [if_pos (by simp [hk.1, hk.2])]
          simp [hk.1, hk.2, hp, hs]
        · rw [if_neg (by simpa using hk)]
          rw [hp, hs]
    rw [hfind2]
    have hkey := List.find?_some hf
    rw [if_pos hkey]
    simp only [Bool.and_eq_true, beq_iff_eq] at hkey
    constructor
    · rfl
    · intro he
      subst he
      simp only [Prod.mk.injEq, and_true]
      congr 1
      rw [List.map_map]
      apply List.map_congr_left
      intro x _
      simp only [Function.comp_apply]
      split_ifs <;> rfl
  | none =>
    simp only
    have hf2 : t.rows.find? (fun x : SessRow =>
        x.data.projectId == sd2.projectId && x.data.sessionId == sd2.sessionId) = none := by
      rw [hpred]
      exact hf
    have hnew : ((t.rows ++ [(⟨t.nextId, sd1⟩ : SessRow)]).find? fun x : SessRow =>
        x.data.projectId == sd2.projectId && x.data.sessionId == sd2.sessionId) =
        some (⟨t.nextId, sd1⟩ : SessRow) := by
      rw [List.find?_append, hf2]
      simp [hp, hs]
    rw [hnew]
    constructor
    · rfl
    · intro he
      subst he
      simp only [Prod.mk.injEq, and_true]
      congr 1
      have hmap : ∀ r ∈ t.rows ++ [(⟨t.nextId, sd2⟩ : SessRow)],
          (if r.data.projectId == sd2.projectId && r.data.sessionId == sd2.sessionId then
            { r with data := { sd2 with createdAt := r.data.createdAt } }
          else r) = r := by
        intro r hr
        rcases List.mem_append.mp hr with hr | hr
        · rw [if_neg]
          have := List.find?_eq_none.mp hf r hr
          simpa using this
        · simp only [List.mem_singleton] at hr
          subst hr
          rw [if_pos (by simp)]
      rw [List.map_congr_left hmap]
      simp

/-- With a non-empty session, the primary import's message table is the
upsert loop followed by the trailing delete. -/
theorem importSessionPrimary_messages (swp : SessionWithProject) (pid : Nat) (db : Db)
    (hne : swp.session.messages ≠ []) :
    (importSessionPrimary swp pid db).1.messages =
      MessageRepository.deleteBySessionIdAndMinSequence
        (importMessagesLoop db.messages
          (SessionRepository.upsert db.sessions (sessionDataOf swp pid)).2 0
          (renderableRows swp))
        (SessionRepository.upsert db.sessions (sessionDataOf swp pid)).2
        ((renderableRows swp).length - 1) := by
  unfold importSessionPrimary
  simp only
  rw [if_neg]
  simp only [List.isEmpty_eq_true, renderableRows, List.map_eq_nil_iff]
  exact hne

/-- Characterization of the message rows of the imported session: row
`(sequence, data)` exists exactly for the in-range sequences, carrying the
converted message. -/
theorem importSessionPrimary_rows_char (swp : SessionWithProject) (pid : Nat) (db : Db)
    (hne : swp.session.messages ≠ []) (q : Nat) (d : RenderData) :
    (∃ r ∈ (importSessionPrimary swp pid db).1.messages.rows,
        r.sessionId = (importSessionPrimary swp pid db).2 ∧ r.sequence = q ∧ r.data = d) ↔
      (renderableRows swp)[q]? = some d := by
  rw [importSessionPrimary_messages swp pid db hne]
  rw [show (importSessionPrimary swp pid db).2 =
    (SessionRepository.upsert db.sessions (sessionDataOf swp pid)).2 from rfl]
  have hn : 0 < (renderableRows swp).length := by
    unfold renderableRows
    simpa [List.length_pos] using hne
  constructor
  · rintro ⟨r, hr, h1, h2, h3⟩
    rw [msgDelete_mem] at hr
    obtain ⟨hr1, hr2⟩ := hr
    have hqle : r.sequence ≤ (renderableRows swp).length - 1 := by
      by_contra hgt
      exact hr2 ⟨h1, by omega⟩
    rcases importMessagesLoop_backward (renderableRows swp) db.messages _ 0 r hr1 with
      ⟨-, hout⟩ | ⟨-, -, hlt, hd⟩
    · rcases hout with h | h | h
      · exact absurd h1 h
      · omega
      · omega
    · rw [h2, h3] at hd
      simpa using hd
  · intro hd
    have hq : q < (renderableRows swp).length := by
      by_contra hge
      rw [List.getElem?_eq_none (by omega)] at hd
      cases hd
    obtain ⟨r, hr, h1, h2, h3⟩ := importMessagesLoop_present (renderableRows swp) db.messages _ 0 q hq
    refine ⟨r, ?_, h1, by omega, ?_⟩
    · rw [msgDelete_mem]
      refine ⟨hr, ?_⟩
      rintro ⟨-, hgt⟩
      omega
    · rw [hd] at h3
      exact (Option.some.inj h3).symm

/-- The primary import preserves the messages-table uniqueness invariant. -/
theorem importSessionPrimary_wf (swp : SessionWithProject) (pid : Nat) (db : Db)
    (hwf : MsgWf db.messages) : MsgWf (importSessionPrimary swp pid db).1.messages := by
  unfold importSessionPrimary
  simp only
  split
  · exact importMessagesLoop_wf _ _ _ _ hwf
  · exact msgDelete_wf _ _ _ (importMessagesLoop_wf _ _ _ _ hwf)

/-- Re-importing the same session leaves the primary store unchanged. -/
theorem importSessionPrimary_stable (swp : SessionWithProject) (pid : Nat) (db : Db)
    (hne : swp.session.messages ≠ []) :
    (importSessionPrimary swp pid (importSessionPrimary swp pid db).1).1 =
      (importSessionPrimary swp pid db).1 := by
  have hre := sessUpsert_restable db.sessions (sessionDataOf swp pid) (sessionDataOf swp pid)
    rfl rfl
  have hstab := hre.2 rfl
  have hsessA : (importSessionPrimary swp pid db).1.sessions =
      (SessionRepository.upsert db.sessions (sessionDataOf swp pid)).1 := rfl
  have hsess : (importSessionPrimary swp pid (importSessionPrimary swp pid db).1).1.sessions =
      (importSessionPrimary swp pid db).1.sessions := by
    rw [show (importSessionPrimary swp pid (importSessionPrimary swp pid db).1).1.sessions =
      (SessionRepository.upsert (importSessionPrimary swp pid db).1.sessions
        (sessionDataOf swp pid)).1 from rfl]
    rw [hsessA, hstab]
  have hsid : (SessionRepository.upsert (importSessionPrimary swp pid db).1.sessions
      (sessionDataOf swp pid)).2 = (importSessionPrimary swp pid db).2 := by
    rw [hsessA]
    exact hre.1
  have hmsg : (importSessionPrimary swp pid (importSessionPrimary swp pid db).1).1.messages =
      (importSessionPrimary swp pid db).1.messages := by
    rw [importSessionPrimary_messages swp pid (importSessionPrimary swp pid db).1 hne]
    rw [hsid]
    have hp : ∀ j, j < (renderableRows swp).length →
        ∃ r ∈ (importSessionPrimary swp pid db).1.messages.rows,
          r.sessionId = (importSessionPrimary swp pid db).2 ∧ r.sequence = 0 + j := by
      intro j hj
      obtain ⟨r, hr, h1, h2, -⟩ := (importSessionPrimary_rows_char swp pid db hne j
        (renderableRows swp)[j]).mpr (List.getElem?_eq_getElem hj)
      exact ⟨r, hr, h1, by omega⟩
    rw [importMessagesLoop_master (renderableRows swp)
      (importSessionPrimary swp pid db).1.messages (importSessionPrimary swp pid db).2 0 hp]
    have hmapid : (importSessionPrimary swp pid db).1.messages.rows.map
        (overwriteRow (importSessionPrimary swp pid db).2 0 (renderableRows swp)) =
        (importSessionPrimary swp pid db).1.messages.rows := by
      have h : ∀ r ∈ (importSessionPrimary swp pid db).1.messages.rows,
          overwriteRow (importSessionPrimary swp pid db).2 0 (renderableRows swp) r = r := by
        intro r hr
        unfold overwriteRow
        split
        · rename_i hcond
          have hd := (importSessionPrimary_rows_char swp pid db hne r.sequence r.data).mp
            ⟨r, hr, hcond.1, rfl, rfl⟩
          rw [List.getD_eq_getElem?_getD, Nat.sub_zero, hd]
          rfl
        · rfl
      rw [List.map_congr_left h]
      simp
    rw [hmapid]
    have htab :
        MsgTable.mk (importSessionPrimary swp pid db).1.messages.rows
          (importSessionPrimary swp pid db).1.messages.nextId =
        (importSessionPrimary swp pid db).1.messages := rfl
    rw [htab]
    have hall : ∀ r ∈ (importSessionPrimary swp pid db).1.messages.rows,
        (!(r.sessionId == (importSessionPrimary swp pid db).2 &&
          decide (r.sequence > (renderableRows swp).length - 1))) = true := by
      intro r hr
      rw [Bool.not_eq_true']
      by_cases hs : r.sessionId = (importSessionPrimary swp pid db).2
      · have hd := (importSessionPrimary_rows_char swp pid db hne r.sequence r.data).mp
          ⟨r, hr, hs, rfl, rfl⟩
        have hlt : r.sequence < (renderableRows swp).length := by
          by_contra hge
          rw [List.getElem?_eq_none (by omega)] at hd
          cases hd
        simp only [hs, beq_self_eq_true, Bool.true_and, decide_eq_false_iff_not, not_lt]
        omega
      · simp [hs]
    unfold MessageRepository.deleteBySessionIdAndMinSequence
    rw [List.filter_eq_self.mpr hall]
  have hbig : (importSessionPrimary swp pid (importSessionPrimary swp pid db).1).1 =
      (⟨(importSessionPrimary swp pid db).1.projects,
        (importSessionPrimary swp pid db).1.sessions,
        (importSessionPrimary swp pid db).1.messages⟩ : Db) := by
    rw [← hsess, ← hmsg]
    rfl
  rw [hbig]

/-- An empty session's primary import: the session row is upserted, the
message table is untouched (the trailing delete is skipped because
`lastSequence` stays `-1`). -/
theorem importSessionPrimary_empty (swp : SessionWithProject) (pid : Nat) (db : Db)
    (hme : swp.session.messages = []) :
    importSessionPrimary swp pid db =
      ({ projects := db.projects,
         sessions := (SessionRepository.upsert db.sessions (sessionDataOf swp pid)).1,
         messages := db.messages },
       (SessionRepository.upsert db.sessions (sessionDataOf swp pid)).2) := by
  have hds : renderableRows swp = [] := by
    unfold renderableRows
    rw [hme]
    rfl
  unfold importSessionPrimary
  rw [hds]
  rfl

/-- Re-importing the same session leaves the primary store unchanged, with
or without messages. -/
theorem importSessionPrimary_stable_all (swp : SessionWithProject) (pid : Nat) (db : Db) :
    (importSessionPrimary swp pid (importSessionPrimary swp pid db).1).1 =
      (importSessionPrimary swp pid db).1 := by
  by_cases hme : swp.session.messages = []
  · have hstab := (sessUpsert_restable db.sessions (sessionDataOf swp pid)
      (sessionDataOf swp pid) rfl rfl).2 rfl
    rw [importSessionPrimary_empty swp pid db hme,
      importSessionPrimary_empty swp pid _ hme]
    simp only
    rw [hstab]
  · exact importSessionPrimary_stable swp pid db hme

/-- A run of a script ending in `COMMIT` that returns normally leaves no
pending row (the final commit flushed the transaction). -/
theorem runSearchOps_ok_pending (pre : List SearchOp) :
    ∀ (db : SearchDb) (fault : Option Nat) (idx : Nat) (db' : SearchDb),
      runSearchOps db (pre ++ [SearchOp.commit]) fault idx = .ok db' → db'.pending = [] := by
  induction pre with
  | nil =>
    intro db fault idx db' h
    rw [List.nil_append] at h
    rw [runSearchOps] at h
    split at h
    · cases h
    · rw [runSearchOps] at h
      cases h
      rfl
  | cons op rest ih =>
    intro db fault idx db' h
    rw [List.cons_append] at h
    rw [runSearchOps] at h
    split at h
    · cases h
    · exact ih _ _ _ _ h

/-- `importSession` always returns normally: the primary component is
exactly the fault-free primary import, and the resulting search state
carries no pending transaction (committed on success, rolled back on a
search-phase error). -/
theorem importSession_run (swp : SessionWithProject) (pid : Nat) (puuid : String)
    (db : Db) (sdb : SearchDb) (f : Option Nat) :
    ∃ sdb' : SearchDb,
      importSession swp pid puuid db sdb f = .ok ((importSessionPrimary swp pid db).1, sdb') ∧
      sdb'.pending = [] := by
  unfold importSession
  cases hrun : runSearchOps sdb (searchScript swp puuid (renderableRows swp)) f 0 with
  | ok s =>
    refine ⟨s, ?_, ?_⟩
    · simp only [hrun]
    · exact runSearchOps_ok_pending _ sdb f 0 s hrun
  | error s =>
    refine ⟨searchRollback s, ?_, rfl⟩
    simp only [hrun]


/-- C1: import is idempotent.  For any session with at least one message
and any initial store satisfying the schema's uniqueness constraint,
running `importSession` twice in succession leaves the primary store
identical to the state after a single import; that state has no duplicate
`(session, sequence)` keys, and every message row of the imported session
has a sequence below the session's message count (no stale trailing
rows). -/
theorem importSession_idempotent (swp : SessionWithProject) (pid : Nat) (puuid : String)
    (db db1 db2 : Db) (sdb sdb2 s1 s2 : SearchDb) (f1 f2 : Option Nat)
    (hwf : MsgWf db.messages) (hne : swp.session.messages ≠ [])
    (h1 : importSession swp pid puuid db sdb f1 = .ok (db1, s1))
    (h2 : importSession swp pid puuid db1 sdb2 f2 = .ok (db2, s2)) :
    db2 = db1 ∧ MsgWf db1.messages ∧
      ∀ r ∈ db1.messages.rows, r.sessionId = (importSessionPrimary swp pid db).2 →
        r.sequence < swp.session.messages.length := by
  obtain ⟨sA, hA, -⟩ := importSession_run swp pid puuid db sdb f1
  rw [hA] at h1
  have hp1 := Except.ok.inj h1
  have hdb1 : (importSessionPrimary swp pid db).1 = db1 := congrArg Prod.fst hp1
  obtain ⟨sB, hB, -⟩ := importSession_run swp pid puuid db1 sdb2 f2
  rw [hB] at h2
  have hp2 := Except.ok.inj h2
  have hdb2 : (importSessionPrimary swp pid db1).1 = db2 := congrArg Prod.fst hp2
  refine ⟨?_, ?_, ?_⟩
  · rw [← hdb2, ← hdb1]
    exact importSessionPrimary_stable swp pid db hne
  · rw [← hdb1]
    exact importSessionPrimary_wf swp pid db hwf
  · intro r hr hs
    rw [← hdb1] at hr
    have hd := (importSessionPrimary_rows_char swp pid db hne r.sequence r.data).mp
      ⟨r, hr, hs, rfl, rfl⟩
    have hlt : r.sequence < (renderableRows swp).length := by
      by_contra hge
      rw [List.getElem?_eq_none (by omega)] at hd
      cases hd
    unfold renderableRows at hlt
    rw [List.length_map] at hlt
    exact hlt

/-- Witness for C1 on the one-message session `wSwp` over the empty store:
both hypotheses and both import equations hold at these inputs, and the
conclusion is evaluated there. -/
theorem importSession_idempotent_witness :
    wDbTwice = wDbOnce ∧ MsgWf wDbOnce.messages ∧
      ∀ r ∈ wDbOnce.messages.rows, r.sessionId = (importSessionPrimary wSwp 1 wDb0).2 →
        r.sequence < wSwp.session.messages.length :=
  importSession_idempotent wSwp 1 "u" wDb0 wDbOnce wDbTwice wSdb0 wSdb0 wS1 wS2 none none
    List.Pairwise.nil (List.cons_ne_nil _ _) rfl rfl

/-- C7: search-index failure isolation.  For every fault position (and
also fault-free), `importSession` returns successfully; its primary
component is exactly the fault-free primary import, and the returned
search state has no open transaction (the final commit flushed it, or the
`catch` rolled it back). -/
theorem importSession_search_failure_isolated (swp : SessionWithProject) (pid : Nat)
    (puuid : String) (db : Db) (sdb : SearchDb) (searchFault : Option Nat) :
    ∃ sdb' : SearchDb,
      importSession swp pid puuid db sdb searchFault =
        .ok ((importSessionPrimary swp pid db).1, sdb') ∧
      sdb'.pending = [] :=
  importSession_run swp pid puuid db sdb searchFault

/-- C4 (amended to 1 ≤ M): re-importing a previously persisted session
with fewer but at least one message truncates and overwrites in place:
the session row id is unchanged; afterwards every message row of the
session has sequence below M; for each sequence q < M the old row and the
new row share their `id` (updated in place, not recreated) and the new row
carries the re-imported data; and `nextId` does not advance (no row was
created).  At M = 0 the source skips the trailing delete
(`if (lastSequence >= 0)`), so the claim's `0 ≤ M` case fails. -/
theorem truncation_reimport_shorter (swpN swpM : SessionWithProject) (pid : Nat)
    (puuid1 puuid2 : String) (db db1 db2 : Db) (sdbA sdbB s1 s2 : SearchDb) (f1 f2 : Option Nat)
    (hsid : swpM.session.sessionId = swpN.session.sessionId)
    (hM : swpM.session.messages ≠ [])
    (hMN : swpM.session.messages.length < swpN.session.messages.length)
    (h1 : importSession swpN pid puuid1 db sdbA f1 = .ok (db1, s1))
    (h2 : importSession swpM pid puuid2 db1 sdbB f2 = .ok (db2, s2)) :
    (importSessionPrimary swpM pid db1).2 = (importSessionPrimary swpN pid db).2 ∧
    (∀ r ∈ db2.messages.rows, r.sessionId = (importSessionPrimary swpN pid db).2 →
        r.sequence < swpM.session.messages.length) ∧
    (∀ q < swpM.session.messages.length,
        ∃ r1 ∈ db1.messages.rows, ∃ r2 ∈ db2.messages.rows,
          r1.sessionId = (importSessionPrimary swpN pid db).2 ∧ r1.sequence = q ∧
          r2.sessionId = (importSessionPrimary swpN pid db).2 ∧ r2.sequence = q ∧
          r2.id = r1.id ∧ (renderableRows swpM)[q]? = some r2.data) ∧
    db2.messages.nextId = db1.messages.nextId := by
  obtain ⟨sA, hA, -⟩ := importSession_run swpN pid puuid1 db sdbA f1
  rw [hA] at h1
  have hdb1 : (importSessionPrimary swpN pid db).1 = db1 := congrArg Prod.fst (Except.ok.inj h1)
  subst hdb1
  obtain ⟨sB, hB, -⟩ := importSession_run swpM pid puuid2 (importSessionPrimary swpN pid db).1
    sdbB f2
  rw [hB] at h2
  have hdb2 : (importSessionPrimary swpM pid (importSessionPrimary swpN pid db).1).1 = db2 :=
    congrArg Prod.fst (Except.ok.inj h2)
  subst hdb2
  have hneN : swpN.session.messages ≠ [] := by
    intro h
    rw [h, List.length_nil] at hMN
    omega
  have hre := sessUpsert_restable db.sessions (sessionDataOf swpN pid) (sessionDataOf swpM pid)
    rfl hsid
  have ha : (importSessionPrimary swpM pid (importSessionPrimary swpN pid db).1).2 =
      (importSessionPrimary swpN pid db).2 := hre.1
  have hlenM : (renderableRows swpM).length = swpM.session.messages.length := by
    unfold renderableRows
    rw [List.length_map]
  have hlenN : (renderableRows swpN).length = swpN.session.messages.length := by
    unfold renderableRows
    rw [List.length_map]
  have hkeys : ∀ j, j < (renderableRows swpM).length →
      ∃ r ∈ (importSessionPrimary swpN pid db).1.messages.rows,
        r.sessionId = (SessionRepository.upsert (importSessionPrimary swpN pid db).1.sessions
          (sessionDataOf swpM pid)).2 ∧ r.sequence = 0 + j := by
    intro j hj
    have hjN : j < (renderableRows swpN).length := by omega
    obtain ⟨r, hr, hx1, hx2, -⟩ := (importSessionPrimary_rows_char swpN pid db hneN j
      ((renderableRows swpN).get ⟨j, hjN⟩)).mpr (by rw [List.getElem?_eq_getElem hjN]; rfl)
    refine ⟨r, hr, ?_, by omega⟩
    rw [hx1]
    exact ha.symm
  have hmsgF : (importSessionPrimary swpM pid (importSessionPrimary swpN pid db).1).1.messages =
      MessageRepository.deleteBySessionIdAndMinSequence
        (MsgTable.mk ((importSessionPrimary swpN pid db).1.messages.rows.map
          (overwriteRow (SessionRepository.upsert (importSessionPrimary swpN pid db).1.sessions
            (sessionDataOf swpM pid)).2 0 (renderableRows swpM)))
          (importSessionPrimary swpN pid db).1.messages.nextId)
        (SessionRepository.upsert (importSessionPrimary swpN pid db).1.sessions
          (sessionDataOf swpM pid)).2
        ((renderableRows swpM).length - 1) := by
    rw [importSessionPrimary_messages swpM pid _ hM]
    rw [importMessagesLoop_master (renderableRows swpM) _ _ 0 hkeys]
  refine ⟨ha, ?_, ?_, ?_⟩
  · intro r hr hs
    have hd := (importSessionPrimary_rows_char swpM pid _ hM r.sequence r.data).mp
      ⟨r, hr, by rw [hs]; exact ha.symm, rfl, rfl⟩
    have hlt : r.sequence < (renderableRows swpM).length := by
      by_contra hge
      rw [List.getElem?_eq_none (by omega)] at hd
      cases hd
    omega
  · intro q hq
    have hqM : q < (renderableRows swpM).length := by omega
    have hqN : q < (renderableRows swpN).length := by omega
    obtain ⟨r1, hr1, h11, h12, -⟩ := (importSessionPrimary_rows_char swpN pid db hneN q
      ((renderableRows swpN).get ⟨q, hqN⟩)).mpr (by rw [List.getElem?_eq_getElem hqN]; rfl)
    have hcond : r1.sessionId = (SessionRepository.upsert
        (importSessionPrimary swpN pid db).1.sessions (sessionDataOf swpM pid)).2 ∧
        0 ≤ r1.sequence ∧ r1.sequence < 0 + (renderableRows swpM).length := by
      refine ⟨?_, by omega, by omega⟩
      rw [h11]
      exact ha.symm
    have hov : overwriteRow (SessionRepository.upsert
        (importSessionPrimary swpN pid db).1.sessions (sessionDataOf swpM pid)).2 0
        (renderableRows swpM) r1 =
        { r1 with data := (renderableRows swpM).getD (r1.sequence - 0) r1.data } := by
      unfold overwriteRow
      rw [if_pos hcond]
    refine ⟨r1, hr1,
      { r1 with data := (renderableRows swpM).getD (r1.sequence - 0) r1.data },
      ?_, h11, h12, h11, h12, rfl, ?_⟩
    · rw [hmsgF, msgDelete_mem]
      refine ⟨?_, ?_⟩
      · rw [← hov]
        exact List.mem_map_of_mem _ hr1
      · rintro ⟨-, hgt⟩
        have hgt2 : r1.sequence > (renderableRows swpM).length - 1 := hgt
        omega
    · show (renderableRows swpM)[q]? =
        some ((renderableRows swpM).getD (r1.sequence - 0) r1.data)
      rw [h12, Nat.sub_zero, List.getD_eq_getElem?_getD, List.getElem?_eq_getElem hqM]
      rfl
  · rw [hmsgF]
    rfl

/-- Witness for the amended C4 theorem: the two-message session `wSwpN2`
is imported, then re-imported as the one-message `wSwp` (same session
identifier), on the empty store, fault-free. -/
theorem truncation_reimport_shorter_witness :
    (importSessionPrimary wSwp 1 wDbN2).2 = (importSessionPrimary wSwpN2 1 wDb0).2 ∧
    (∀ r ∈ wDbM1.messages.rows, r.sessionId = (importSessionPrimary wSwpN2 1 wDb0).2 →
        r.sequence < wSwp.session.messages.length) ∧
    (∀ q < wSwp.session.messages.length,
        ∃ r1 ∈ wDbN2.messages.rows, ∃ r2 ∈ wDbM1.messages.rows,
          r1.sessionId = (importSessionPrimary wSwpN2 1 wDb0).2 ∧ r1.sequence = q ∧
          r2.sessionId = (importSessionPrimary wSwpN2 1 wDb0).2 ∧ r2.sequence = q ∧
          r2.id = r1.id ∧ (renderableRows wSwp)[q]? = some r2.data) ∧
    wDbM1.messages.nextId = wDbN2.messages.nextId :=
  truncation_reimport_shorter wSwpN2 wSwp 1 "u" "u" wDb0 wDbN2 wDbM1 wSdb0 wSdb0 wSN2 wS1
    none none rfl (List.cons_ne_nil _ _) (by decide) rfl rfl

/-- C4 counterexample at M = 0: the one-message session `wSwp` is
persisted, then re-imported with zero messages under the same session
identifier.  The claim demands that every row with sequence ≥ 0 be
removed, but the source's `if (lastSequence >= 0)` guard skips the delete
when the message list is empty, so the stale sequence-0 row survives. -/
theorem truncation_m0_stale_counterexample :
    wSwpShort.session.messages.length = 0 ∧
    wSwpShort.session.sessionId = wSwp.session.sessionId ∧
    ∃ r ∈ (primaryOf (importSession wSwpShort 1 "u" wDbOnce wSdb0 none)).messages.rows,
      r.sessionId = (importSessionPrimary wSwp 1 wDb0).2 ∧ r.sequence = 0 := by
  decide

/-- A grouping step keeps the group keys pairwise distinct. -/
theorem groupStep_keys_nodup (acc : List (String × List SessionWithProject))
    (s : SessionWithProject) (h : (acc.map Prod.fst).Nodup) :
    ((groupStep acc s).map Prod.fst).Nodup := by
  unfold groupStep
  split
  · have hkeys : (acc.map (groupExtend s.projectName s)).map Prod.fst = acc.map Prod.fst := by
      rw [List.map_map]
      apply List.map_congr_left
      intro g _
      unfold groupExtend
      simp only [Function.comp_apply]
      split <;> rfl
    rw [hkeys]
    exact h
  · rename_i hany
    rw [List.map_append]
    rw [List.nodup_append]
    refine ⟨h, List.nodup_singleton _, ?_⟩
    intro a ha hb
    simp only [List.map_cons, List.map_nil, List.mem_singleton] at hb
    subst hb
    rw [List.mem_map] at ha
    obtain ⟨g, hg, hfst⟩ := ha
    apply hany
    rw [List.any_eq_true]
    exact ⟨g, hg, by simp [hfst]⟩

/-- Extending the unique matching group adds exactly one session to the
total. -/
theorem groupExtend_sum (name : String) (s : SessionWithProject) :
    ∀ acc : List (String × List SessionWithProject),
      (acc.map Prod.fst).Nodup → acc.any (fun g => g.1 == name) = true →
      (((acc.map (groupExtend name s)).map fun g => g.2.length).sum) =
        ((acc.map fun g => g.2.length).sum) + 1 := by
  intro acc
  induction acc with
  | nil =>
    intro _ hany
    simp at hany
  | cons g rest ih =>
    intro hnd hany
    rw [List.map_cons, List.map_cons, List.map_cons, List.sum_cons, List.sum_cons]
    by_cases hg : g.1 = name
    · have hrest : rest.map (groupExtend name s) = rest := by
        have h : ∀ x ∈ rest, groupExtend name s x = x := by
          intro x hx
          unfold groupExtend
          rw [if_neg]
          simp only [beq_iff_eq]
          intro hxname
          rw [List.map_cons] at hnd
          have hmem : x.1 ∈ rest.map Prod.fst := List.mem_map_of_mem _ hx
          rw [hxname, ← hg] at hmem
          exact (List.nodup_cons.mp hnd).1 hmem
        rw [List.map_congr_left h]
        simp
      rw [hrest]
      have hext : (groupExtend name s g).2.length = g.2.length + 1 := by
        unfold groupExtend
        rw [if_pos (by simpa using hg)]
        simp
      rw [hext]
      omega
    · have hgext : groupExtend name s g = g := by
        unfold groupExtend
        rw [if_neg (by simpa using hg)]
      rw [hgext]
      have hany' : rest.any (fun g => g.1 == name) = true := by
        rw [List.any_cons] at hany
        rcases Bool.or_eq_true_iff.mp hany with h | h
        · exact absurd (by simpa using h) hg
        · exact h
      rw [List.map_cons] at hnd
      rw [ih (List.nodup_cons.mp hnd).2 hany']
      omega

/-- One grouping step adds exactly one session to the total. -/
theorem groupStep_sum (acc : List (String × List SessionWithProject)) (s : SessionWithProject)
    (hnd : (acc.map Prod.fst).Nodup) :
    (((groupStep acc s).map fun g => g.2.length).sum) =
      ((acc.map fun g => g.2.length).sum) + 1 := by
  unfold groupStep
  split
  · rename_i hany
    exact groupExtend_sum s.projectName s acc hnd hany
  · rw [List.map_append, List.sum_append]
    simp

/-- The grouping fold preserves the session total. -/
theorem groupFold_sum (l : List SessionWithProject) :
    ∀ acc : List (String × List SessionWithProject), (acc.map Prod.fst).Nodup →
      (((l.foldl groupStep acc).map fun g => g.2.length).sum) =
        ((acc.map fun g => g.2.length).sum) + l.length := by
  induction l with
  | nil =>
    intro acc _
    rw [List.foldl_nil, List.length_nil, Nat.add_zero]
  | cons s rest ih =>
    intro acc hnd
    rw [List.foldl_cons]
    rw [ih (groupStep acc s) (groupStep_keys_nodup acc s hnd)]
    rw [groupStep_sum acc s hnd]
    rw [List.length_cons]
    omega

/-- A session already in a group stays in one after a grouping step. -/
theorem groupStep_mem_mono (acc : List (String × List SessionWithProject))
    (s s0 : SessionWithProject) (h : ∃ g ∈ acc, s0 ∈ g.2) :
    ∃ g ∈ groupStep acc s, s0 ∈ g.2 := by
  obtain ⟨g, hg, hs0⟩ := h
  unfold groupStep
  split
  · refine ⟨groupExtend s.projectName s g, List.mem_map_of_mem _ hg, ?_⟩
    unfold groupExtend
    split
    · exact List.mem_append_left _ hs0
    · exact hs0
  · exact ⟨g, List.mem_append_left _ hg, hs0⟩

/-- A grouping step puts its session into some group. -/
theorem groupStep_mem_self (acc : List (String × List SessionWithProject))
    (s : SessionWithProject) : ∃ g ∈ groupStep acc s, s ∈ g.2 := by
  unfold groupStep
  split
  · rename_i hany
    rw [List.any_eq_true] at hany
    obtain ⟨g, hg, hp⟩ := hany
    refine ⟨groupExtend s.projectName s g, List.mem_map_of_mem _ hg, ?_⟩
    unfold groupExtend
    rw [if_pos hp]
    exact List.mem_append_right _ (by simp)
  · exact ⟨(s.projectName, [s]), List.mem_append_right _ (by simp), by simp⟩

/-- The grouping fold never loses a grouped session. -/
theorem groupFold_mem_mono (l : List SessionWithProject) :
    ∀ (acc : List (String × List SessionWithProject)) (s0 : SessionWithProject),
      (∃ g ∈ acc, s0 ∈ g.2) → ∃ g ∈ l.foldl groupStep acc, s0 ∈ g.2 := by
  induction l with
  | nil => intro acc s0 h; exact h
  | cons s rest ih =>
    intro acc s0 h
    rw [List.foldl_cons]
    exact ih _ s0 (groupStep_mem_mono acc s s0 h)

/-- Every session of the input list ends up in some group. -/
theorem groupFold_mem_of_mem (l : List SessionWithProject) :
    ∀ (acc : List (String × List SessionWithProject)) (s0 : SessionWithProject), s0 ∈ l →
      ∃ g ∈ l.foldl groupStep acc, s0 ∈ g.2 := by
  induction l with
  | nil => intro acc s0 h; cases h
  | cons s rest ih =>
    intro acc s0 h
    rw [List.foldl_cons]
    rcases List.mem_cons.mp h with rfl | h'
    · exact groupFold_mem_mono rest _ s0 (groupStep_mem_self acc s0)
    · exact ih _ s0 h'

/-- A session found in a group after one step came from the accumulator or
is the stepped session. -/
theorem groupStep_mem_src (acc : List (String × List SessionWithProject))
    (s : SessionWithProject) (g : String × List SessionWithProject)
    (hg : g ∈ groupStep acc s) (s0 : SessionWithProject) (hs0 : s0 ∈ g.2) :
    (∃ g' ∈ acc, s0 ∈ g'.2) ∨ s0 = s := by
  unfold groupStep at hg
  split at hg
  · obtain ⟨g', hg', heq⟩ := List.mem_map.mp hg
    subst heq
    unfold groupExtend at hs0
    split at hs0
    · have hs0' : s0 ∈ g'.2 ++ [s] := hs0
      rcases List.mem_append.mp hs0' with h | h
      · exact Or.inl ⟨g', hg', h⟩
      · right
        simpa using h
    · exact Or.inl ⟨g', hg', hs0⟩
  · rcases List.mem_append.mp hg with h | h
    · exact Or.inl ⟨g, h, hs0⟩
    · simp only [List.mem_singleton] at h
      subst h
      right
      simpa using hs0

/-- A session found in any group after the grouping fold came from the
accumulator or from the input list. -/
theorem groupFold_mem_src (l : List SessionWithProject) :
    ∀ (acc : List (String × List SessionWithProject)) (g : String × List SessionWithProject),
      g ∈ l.foldl groupStep acc → ∀ s0 ∈ g.2,
      (∃ g' ∈ acc, s0 ∈ g'.2) ∨ s0 ∈ l := by
  induction l with
  | nil => intro acc g hg s0 hs0; exact Or.inl ⟨g, hg, hs0⟩
  | cons s rest ih =>
    intro acc g hg s0 hs0
    rw [List.foldl_cons] at hg
    rcases ih _ g hg s0 hs0 with ⟨g', hg', hs0'⟩ | h
    · rcases groupStep_mem_src acc s g' hg' s0 hs0' with h | rfl
      · exact Or.inl h
      · right
        exact List.mem_cons_self _ _
    · right
      exact List.mem_cons_of_mem _ h

/-- A session upsert keeps every present session identifier present (a
conflicting row is rewritten with the same `session_id`; other rows are
untouched; otherwise a row is appended). -/
theorem sessUpsert_mem_id (t : SessTable) (sd : SessionData) (x : String)
    (h : ∃ r ∈ t.rows, r.data.sessionId = x) :
    ∃ r ∈ (SessionRepository.upsert t sd).1.rows, r.data.sessionId = x := by
  obtain ⟨r, hr, hx⟩ := h
  unfold SessionRepository.upsert
  cases hf : t.rows.find? (fun r =>
      r.data.projectId == sd.projectId && r.data.sessionId == sd.sessionId) with
  | some r0 =>
    simp only
    refine ⟨if r.data.projectId == sd.projectId && r.data.sessionId == sd.sessionId then
        { r with data := { sd with createdAt := r.data.createdAt } } else r,
      List.mem_map_of_mem _ hr, ?_⟩
    split
    · rename_i hc
      simp only [Bool.and_eq_true, beq_iff_eq] at hc
      show sd.sessionId = x
      rw [← hc.2]
      exact hx
    · exact hx
  | none =>
    simp only
    exact ⟨r, List.mem_append_left _ hr, hx⟩

/-- After a session upsert, the upserted session identifier is present. -/
theorem sessUpsert_present_id (t : SessTable) (sd : SessionData) :
    ∃ r ∈ (SessionRepository.upsert t sd).1.rows, r.data.sessionId = sd.sessionId := by
  unfold SessionRepository.upsert
  cases hf : t.rows.find? (fun r =>
      r.data.projectId == sd.projectId && r.data.sessionId == sd.sessionId) with
  | some r0 =>
    simp only
    have hr0 := List.mem_of_find?_eq_some hf
    have hp := List.find?_some hf
    refine ⟨if r0.data.projectId == sd.projectId && r0.data.sessionId == sd.sessionId then
        { r0 with data := { sd with createdAt := r0.data.createdAt } } else r0,
      List.mem_map_of_mem _ hr0, ?_⟩
    rw [if_pos hp]
  | none =>
    simp only
    exact ⟨⟨t.nextId, sd⟩, List.mem_append_right _ (by simp), rfl⟩

/-- The primary import keeps every present session identifier present. -/
theorem importSessionPrimary_sess_mono (swp : SessionWithProject) (pid : Nat) (db : Db)
    (x : String) (h : ∃ r ∈ db.sessions.rows, r.data.sessionId = x) :
    ∃ r ∈ (importSessionPrimary swp pid db).1.sessions.rows, r.data.sessionId = x :=
  sessUpsert_mem_id db.sessions (sessionDataOf swp pid) x h

/-- After the primary import, the imported session's identifier is
present. -/
theorem importSessionPrimary_sess_present (swp : SessionWithProject) (pid : Nat) (db : Db) :
    ∃ r ∈ (importSessionPrimary swp pid db).1.sessions.rows,
      r.data.sessionId = swp.session.sessionId :=
  sessUpsert_present_id db.sessions (sessionDataOf swp pid)

/-- A non-skipped session's `importSessionStep` is a fault-free import
that bumps the imported counter. -/
theorem importSessionStep_valid (pid : Nat) (puuid : String)
    (acc2 : Db × SearchDb × ImportRunCounts) (s : SessionWithProject)
    (hval : ¬(s.projectPath = "" ∨ s.projectPath = "unknown")) :
    ∃ sdb' : SearchDb, importSessionStep pid puuid acc2 s =
      ((importSessionPrimary s pid acc2.1).1, sdb',
        ⟨acc2.2.2.imported + 1, acc2.2.2.errors⟩) := by
  obtain ⟨sdb', hok, -⟩ := importSession_run s pid puuid acc2.1 acc2.2.1 none
  refine ⟨sdb', ?_⟩
  unfold importSessionStep
  split
  · rename_i hc
    exact absurd (by simpa using hc) hval
  · rw [hok]

/-- `importSessionStep` keeps every present session identifier present. -/
theorem importSessionStep_sess_mono (pid : Nat) (puuid : String)
    (acc2 : Db × SearchDb × ImportRunCounts) (s : SessionWithProject) (x : String)
    (h : ∃ r ∈ acc2.1.sessions.rows, r.data.sessionId = x) :
    ∃ r ∈ (importSessionStep pid puuid acc2 s).1.sessions.rows, r.data.sessionId = x := by
  unfold importSessionStep
  split
  · exact h
  · obtain ⟨sdb', hok, -⟩ := importSession_run s pid puuid acc2.1 acc2.2.1 none
    rw [hok]
    exact importSessionPrimary_sess_mono s pid acc2.1 x h

/-- After `importSessionStep` on a non-skipped session, its identifier is
present. -/
theorem importSessionStep_sess_present (pid : Nat) (puuid : String)
    (acc2 : Db × SearchDb × ImportRunCounts) (s : SessionWithProject)
    (hval : ¬(s.projectPath = "" ∨ s.projectPath = "unknown")) :
    ∃ r ∈ (importSessionStep pid puuid acc2 s).1.sessions.rows,
      r.data.sessionId = s.session.sessionId := by
  obtain ⟨sdb', hstep⟩ := importSessionStep_valid pid puuid acc2 s hval
  rw [hstep]
  exact importSessionPrimary_sess_present s pid acc2.1

/-- The per-group session fold keeps every present session identifier
present. -/
theorem sessionFold_sess_mono (pid : Nat) (puuid : String) (l : List SessionWithProject) :
    ∀ (acc2 : Db × SearchDb × ImportRunCounts) (x : String),
      (∃ r ∈ acc2.1.sessions.rows, r.data.sessionId = x) →
      ∃ r ∈ (l.foldl (importSessionStep pid puuid) acc2).1.sessions.rows,
        r.data.sessionId = x := by
  induction l with
  | nil => intro acc2 x h; exact h
  | cons s rest ih =>
    intro acc2 x h
    rw [List.foldl_cons]
    exact ih _ x (importSessionStep_sess_mono pid puuid acc2 s x h)

/-- After the per-group session fold, every non-skipped member session's
identifier is present. -/
theorem sessionFold_sess_present (pid : Nat) (puuid : String) (l : List SessionWithProject) :
    ∀ (acc2 : Db × SearchDb × ImportRunCounts) (s0 : SessionWithProject), s0 ∈ l →
      ¬(s0.projectPath = "" ∨ s0.projectPath = "unknown") →
      ∃ r ∈ (l.foldl (importSessionStep pid puuid) acc2).1.sessions.rows,
        r.data.sessionId = s0.session.sessionId := by
  induction l with
  | nil => intro _ _ h _; cases h
  | cons s rest ih =>
    intro acc2 s0 hmem hval
    rw [List.foldl_cons]
    rcases List.mem_cons.mp hmem with rfl | h'
    · exact sessionFold_sess_mono pid puuid rest _ _
        (importSessionStep_sess_present pid puuid acc2 s0 hval)
    · exact ih _ s0 h' hval

/-- Counting the per-group session fold: with no skipped session, every
session is imported and none errors. -/
theorem sessionFold_counts (pid : Nat) (puuid : String) (l : List SessionWithProject) :
    ∀ acc2 : Db × SearchDb × ImportRunCounts,
      (∀ s ∈ l, ¬(s.projectPath = "" ∨ s.projectPath = "unknown")) →
      (l.foldl (importSessionStep pid puuid) acc2).2.2 =
        ⟨acc2.2.2.imported + l.length, acc2.2.2.errors⟩ := by
  induction l with
  | nil =>
    intro acc2 _
    rw [List.foldl_nil, List.length_nil, Nat.add_zero]
  | cons s rest ih =>
    intro acc2 hval
    rw [List.foldl_cons]
    obtain ⟨sdb', hstep⟩ := importSessionStep_valid pid puuid acc2 s
      (hval s (List.mem_cons_self _ _))
    rw [hstep, ih _ (fun x hx => hval x (List.mem_cons_of_mem _ hx))]
    rw [List.length_cons]
    show (⟨acc2.2.2.imported + 1 + rest.length, acc2.2.2.errors⟩ : ImportRunCounts) = _
    congr 1
    omega

/-- Counting one project group: with no skipped session, the group adds
its size to the imported count and never errors. -/
theorem importProjectGroup_counts (parseDate : String → Int) (isoOfMs : Int → String)
    (acc : Db × SearchDb × ImportRunCounts) (g : String × List SessionWithProject)
    (hval : ∀ s ∈ g.2, ¬(s.projectPath = "" ∨ s.projectPath = "unknown")) :
    (importProjectGroup parseDate isoOfMs acc g).2.2 =
      ⟨acc.2.2.imported + g.2.length, acc.2.2.errors⟩ := by
  unfold importProjectGroup
  exact sessionFold_counts _ _ g.2 _ hval

/-- One project group keeps every present session identifier present. -/
theorem importProjectGroup_sess_mono (parseDate : String → Int) (isoOfMs : Int → String)
    (acc : Db × SearchDb × ImportRunCounts) (g : String × List SessionWithProject)
    (x : String) (h : ∃ r ∈ acc.1.sessions.rows, r.data.sessionId = x) :
    ∃ r ∈ (importProjectGroup parseDate isoOfMs acc g).1.sessions.rows,
      r.data.sessionId = x := by
  unfold importProjectGroup
  exact sessionFold_sess_mono _ _ g.2 _ x h

/-- After one project group, every non-skipped member session's identifier
is present. -/
theorem importProjectGroup_sess_present (parseDate : String → Int) (isoOfMs : Int → String)
    (acc : Db × SearchDb × ImportRunCounts) (g : String × List SessionWithProject)
    (s0 : SessionWithProject) (hs0 : s0 ∈ g.2)
    (hval : ¬(s0.projectPath = "" ∨ s0.projectPath = "unknown")) :
    ∃ r ∈ (importProjectGroup parseDate isoOfMs acc g).1.sessions.rows,
      r.data.sessionId = s0.session.sessionId := by
  unfold importProjectGroup
  exact sessionFold_sess_present _ _ g.2 _ s0 hs0 hval

/-- Counting the fold over all project groups. -/
theorem groupsFold_counts (parseDate : String → Int) (isoOfMs : Int → String)
    (gs : List (String × List SessionWithProject)) :
    ∀ acc : Db × SearchDb × ImportRunCounts,
      (∀ g ∈ gs, ∀ s ∈ g.2, ¬(s.projectPath = "" ∨ s.projectPath = "unknown")) →
      (gs.foldl (importProjectGroup parseDate isoOfMs) acc).2.2 =
        ⟨acc.2.2.imported + ((gs.map fun g => g.2.length).sum), acc.2.2.errors⟩ := by
  induction gs with
  | nil =>
    intro acc _
    rw [List.foldl_nil, List.map_nil, List.sum_nil, Nat.add_zero]
  | cons g rest ih =>
    intro acc hval
    rw [List.foldl_cons]
    rw [ih _ (fun g' hg' => hval g' (List.mem_cons_of_mem _ hg'))]
    rw [importProjectGroup_counts parseDate isoOfMs acc g (hval g (List.mem_cons_self _ _))]
    show (⟨acc.2.2.imported + g.2.length + ((rest.map fun g => g.2.length).sum),
      acc.2.2.errors⟩ : ImportRunCounts) = _
    rw [List.map_cons, List.sum_cons]
    congr 1
    omega

/-- The fold over all project groups keeps every present session
identifier present. -/
theorem groupsFold_sess_mono (parseDate : String → Int) (isoOfMs : Int → String)
    (gs : List (String × List SessionWithProject)) :
    ∀ (acc : Db × SearchDb × ImportRunCounts) (x : String),
      (∃ r ∈ acc.1.sessions.rows, r.data.sessionId = x) →
      ∃ r ∈ (gs.foldl (importProjectGroup parseDate isoOfMs) acc).1.sessions.rows,
        r.data.sessionId = x := by
  induction gs with
  | nil => intro acc x h; exact h
  | cons g rest ih =>
    intro acc x h
    rw [List.foldl_cons]
    exact ih _ x (importProjectGroup_sess_mono parseDate isoOfMs acc g x h)

/-- After the fold over all project groups, every non-skipped grouped
session's identifier is present. -/
theorem groupsFold_sess_present (parseDate : String → Int) (isoOfMs : Int → String)
    (gs : List (String × List SessionWithProject)) :
    ∀ (acc : Db × SearchDb × ImportRunCounts) (g : String × List SessionWithProject),
      g ∈ gs → ∀ s0 ∈ g.2, ¬(s0.projectPath = "" ∨ s0.projectPath = "unknown") →
      ∃ r ∈ (gs.foldl (importProjectGroup parseDate isoOfMs) acc).1.sessions.rows,
        r.data.sessionId = s0.session.sessionId := by
  induction gs with
  | nil => intro _ _ h; cases h
  | cons g0 rest ih =>
    intro acc g hg s0 hs0 hval
    rw [List.foldl_cons]
    rcases List.mem_cons.mp hg with rfl | h'
    · exact groupsFold_sess_mono parseDate isoOfMs rest _ _
        (importProjectGroup_sess_present parseDate isoOfMs acc g s0 hs0 hval)
    · exact ih _ g h' s0 hs0 hval

/-- C9 (amended): `importAll` runs every adapter's sessions through
grouping and import.  When no session is skippable (non-empty project
name, usable project path), the aggregated counters — which the source
only prints, its return type being `Promise<void>`, and which contain no
skipped count — equal (total session count, 0 errors), the skipped list
is empty, and every session's identifier is persisted in the sessions
table. -/
theorem importAll_counts_and_persists (adapters : List (List SessionWithProject))
    (parseDate : String → Int) (isoOfMs : Int → String) (db : Db) (sdb : SearchDb)
    (hvalid : ∀ l ∈ adapters, ∀ s ∈ l,
      s.projectName ≠ "" ∧ s.projectPath ≠ "" ∧ s.projectPath ≠ "unknown") :
    (importAll adapters parseDate isoOfMs db sdb).2.2 =
      ⟨(adapters.flatMap id).length, 0⟩ ∧
    skippedSessionsOf adapters = [] ∧
    (∀ l ∈ adapters, ∀ s ∈ l,
      ∃ r ∈ (importAll adapters parseDate isoOfMs db sdb).1.sessions.rows,
        r.data.sessionId = s.session.sessionId) := by
  have hvalid' : ∀ s ∈ adapters.flatMap id,
      s.projectName ≠ "" ∧ s.projectPath ≠ "" ∧ s.projectPath ≠ "unknown" := by
    intro s hs
    rw [List.mem_flatMap] at hs
    obtain ⟨l, hl, hsl⟩ := hs
    exact hvalid l hl s hsl
  have hfilter : (adapters.flatMap id).filter (fun s => s.projectName ≠ "") =
      adapters.flatMap id := by
    rw [List.filter_eq_self]
    intro s hs
    simpa using (hvalid' s hs).1
  have himp : importAll adapters parseDate isoOfMs db sdb =
      ((adapters.flatMap id).foldl groupStep []).foldl
        (importProjectGroup parseDate isoOfMs) (db, sdb, ⟨0, 0⟩) := by
    unfold importAll
    simp only
    rw [hfilter]
    rfl
  have hgval : ∀ g ∈ (adapters.flatMap id).foldl groupStep [],
      ∀ s ∈ g.2, ¬(s.projectPath = "" ∨ s.projectPath = "unknown") := by
    intro g hg s hs
    rcases groupFold_mem_src (adapters.flatMap id) [] g hg s hs with ⟨g', hg', -⟩ | hmem
    · cases hg'
    · rintro (h | h)
      · exact (hvalid' s hmem).2.1 h
      · exact (hvalid' s hmem).2.2 h
  have hsum0 : ((((adapters.flatMap id).foldl groupStep []).map fun g => g.2.length).sum) =
      (adapters.flatMap id).length := by
    rw [groupFold_sum (adapters.flatMap id) [] List.nodup_nil]
    simp
  refine ⟨?_, ?_, ?_⟩
  · rw [himp, groupsFold_counts parseDate isoOfMs _ _ hgval]
    show (⟨0 + ((((adapters.flatMap id).foldl groupStep []).map fun g => g.2.length).sum), 0⟩ :
      ImportRunCounts) = _
    rw [hsum0, Nat.zero_add]
  · unfold skippedSessionsOf
    rw [List.filter_eq_nil_iff]
    intro s hs
    simp [(hvalid' s hs).1, (hvalid' s hs).2.1, (hvalid' s hs).2.2]
  · intro l hl s hsl
    rw [himp]
    have hmem : s ∈ adapters.flatMap id := List.mem_flatMap.mpr ⟨l, hl, hsl⟩
    obtain ⟨g, hg, hsg⟩ := groupFold_mem_of_mem (adapters.flatMap id) [] s hmem
    refine groupsFold_sess_present parseDate isoOfMs _ _ g hg s hsg ?_
    rintro (h | h)
    · exact (hvalid' s hmem).2.1 h
    · exact (hvalid' s hmem).2.2 h

/-- Witness for the amended C9 theorem on a single one-session adapter. -/
theorem importAll_counts_and_persists_witness :
    (importAll [[wSwp]] (fun _ => 0) (fun _ => "") wDb0 wSdb0).2.2 =
      ⟨([[wSwp]].flatMap id).length, 0⟩ ∧
    skippedSessionsOf [[wSwp]] = [] ∧
    (∀ l ∈ [[wSwp]], ∀ s ∈ l,
      ∃ r ∈ (importAll [[wSwp]] (fun _ => 0) (fun _ => "") wDb0 wSdb0).1.sessions.rows,
        r.data.sessionId = s.session.sessionId) :=
  importAll_counts_and_persists [[wSwp]] (fun _ => 0) (fun _ => "") wDb0 wSdb0 (by decide)

/-- C9 counterexample: an adapter run with one skipped session and a run
with none produce identical aggregate counters, so the counters carry no
skipped count (and the source only logs them: `importAll` returns
`Promise<void>`). -/
theorem importAll_no_skipped_counterexample :
    (importAll [] (fun _ => 0) (fun _ => "") wDb0 wSdb0).2.2 =
      (importAll [[wSwpNoName]] (fun _ => 0) (fun _ => "") wDb0 wSdb0).2.2 ∧
    (skippedSessionsOf []).length = 0 ∧
    (skippedSessionsOf [[wSwpNoName]]).length = 1 := by
  decide
